import Mathlib

/-!
Verification of the rbcp directory-synchronization engine.
This file gives a shallow embedding, in Lean, of the core of the rbcp
repository (src/src/copy.rs, src/src/utils.rs, src/src/args.rs and
src/rbcp-core/src/engine.rs) and proves, or refutes, the testable
properties stated in the repository's specification.
Modelling conventions, used throughout:
- Machine integers (u64/usize) are modelled as Nat; none of the modelled
  code paths overflow-wrap, and in Rust these would panic in debug builds.
- SystemTime values are modelled as Nat (seconds since the epoch); the code
  only compares them and copies them.
- The filesystem is modelled as a tree of files and directories carrying
  (mtime, size) metadata; file contents are abstracted to their size.
- Shared atomic Statistics counters are modelled as per-call increment
  deltas that the sequential caller sums (the engine runs sequentially
  when threads = 1; parallel interleavings only permute independent
  increments of independent monotone counters).
- The progress callback is modelled by: a constant cancellation flag for
  the directory walk, and poll-indexed cancellation streams for the
  transfer retry loop and the chunked content copy, where observation
  order matters.  Pause (wait_if_paused) is a no-op in the model.
- I/O failure points that the claims depend on are modelled explicitly:
  creating a file over an existing directory or under a missing/blocked
  parent fails; all other reads and writes succeed.
-/
/-- File metadata as the engine consumes it: modification time and size
(Rust: std::fs::Metadata, of which copy.rs uses modified() and len()). -/
structure FileMeta where
  mtime : Nat
  size : Nat
deriving DecidableEq, Repr

/-- The Statistics counters of src/rbcp-core/src/stats.rs.  Each modelled
operation returns its increment delta; deltas are summed by the caller. -/
structure Statistics where
  dirs_created : Nat := 0
  files_copied : Nat := 0
  bytes_copied : Nat := 0
  dirs_skipped : Nat := 0
  files_skipped : Nat := 0
  files_failed : Nat := 0
  dirs_removed : Nat := 0
  files_removed : Nat := 0
deriving DecidableEq, Repr

/-- The all-zero counter state (Statistics::new). -/
def Statistics.zero : Statistics := {}

/-- Field-wise sum of two counter deltas (the effect of two groups of
fetch_add increments on the shared counters). -/
def Statistics.add (a b : Statistics) : Statistics :=
  { dirs_created := a.dirs_created + b.dirs_created
    files_copied := a.files_copied + b.files_copied
    bytes_copied := a.bytes_copied + b.bytes_copied
    dirs_skipped := a.dirs_skipped + b.dirs_skipped
    files_skipped := a.files_skipped + b.files_skipped
    files_failed := a.files_failed + b.files_failed
    dirs_removed := a.dirs_removed + b.dirs_removed
    files_removed := a.files_removed + b.files_removed }

instance : Add Statistics := ⟨Statistics.add⟩

/-- The I/O errors the model distinguishes: a failed destination create
(File::create / create_dir_all on an impossible path) and the
Interrupted("Cancelled") error that copy_file_content raises when it
observes cancellation mid-transfer. -/
inductive CopyErr where
  | createFailed : CopyErr
  | interrupted : CopyErr
deriving DecidableEq, Repr

/-- Log lines, abstracted to events (the Rust code formats them with the
paths involved; the model keeps the entry name and the variable data). -/
inductive LogEv where
  | creatingDir : String → LogEv
  | wouldCreateDir : String → LogEv
  | copyingFile : String → LogEv
  | wouldCopyFile : String → LogEv
  | skippingEmptyDir : String → LogEv
  | removingFile : String → Bool → LogEv
  | removingDir : String → Bool → LogEv
  | retryAttempt : Nat → Nat → CopyErr → LogEv
  | copyFailed : Nat → CopyErr → LogEv
  | securelyDeletedFile : String → LogEv
deriving DecidableEq, Repr

/-! ## Pattern matching (src/src/utils.rs, matches_pattern; the glob crate)
utils.rs first compiles the pattern with glob::Pattern::new and accepts the
name if the compiled pattern matches; otherwise it falls back to the legacy
wildcard-at-edges matching.  The glob crate is an external dependency; its
single-path-component semantics (literal characters, ?, *, [...] classes
with ranges and ! negation, error on an unclosed class) is embedded below.
The file names being matched contain no path separators. -/
/-- One member of a glob character class: a single character or a range. -/
inductive ClsItem where
  | one : Char → ClsItem
  | span : Char → Char → ClsItem
deriving DecidableEq, Repr

/-- A compiled glob pattern token. -/
inductive GlobTok where
  | anyChar : GlobTok
  | anySeq : GlobTok
  | lit : Char → GlobTok
  | cls : Bool → List ClsItem → GlobTok
deriving DecidableEq, Repr

/-- Whether a character is a member of a character class. -/
def clsContains (c : Char) : List ClsItem → Bool
  | [] => false
  | ClsItem.one a :: rest => a == c || clsContains c rest
  | ClsItem.span a b :: rest => (decide (a ≤ c) && decide (c ≤ b)) || clsContains c rest

mutual

/-- Compile a glob pattern (glob::Pattern::new); none models PatternError
(an unclosed character class). -/
def globParse : List Char → Option (List GlobTok)
  | [] => some []
  | '*' :: rest => (globParse rest).map (fun ts => GlobTok.anySeq :: ts)
  | '?' :: rest => (globParse rest).map (fun ts => GlobTok.anyChar :: ts)
  | '[' :: '!' :: ']' :: rest => globParseCls true [ClsItem.one ']'] rest
  | '[' :: '!' :: rest => globParseCls true [] rest
  | '[' :: ']' :: rest => globParseCls false [ClsItem.one ']'] rest
  | '[' :: rest => globParseCls false [] rest
  | c :: rest => (globParse rest).map (fun ts => GlobTok.lit c :: ts)

/-- Compile the inside of a character class, accumulating its members. -/
def globParseCls (negated : Bool) (acc : List ClsItem) : List Char → Option (List GlobTok)
  | [] => none
  | ']' :: rest => (globParse rest).map (fun ts => GlobTok.cls negated acc.reverse :: ts)
  | a :: '-' :: ']' :: rest =>
      (globParse rest).map
        (fun ts => GlobTok.cls negated (ClsItem.one '-' :: ClsItem.one a :: acc).reverse :: ts)
  | a :: '-' :: b :: rest => globParseCls negated (ClsItem.span a b :: acc) rest
  | a :: rest => globParseCls negated (ClsItem.one a :: acc) rest

end

/-- Glob matching, fuel-indexed so that the recursion is structural; each
recursive call shortens tokens-plus-text by at least one, so any fuel of at
least that combined length gives the fixpoint semantics (the fuel-exhausted
arm is unreachable then). -/
def globMatchF : Nat → List GlobTok → List Char → Bool
  | _, [], [] => true
  | _, [], _ :: _ => false
  | 0, _ :: _, _ => false
  | f + 1, GlobTok.anySeq :: ts, s =>
      globMatchF f ts s ||
        (match s with
         | [] => false
         | _ :: s1 => globMatchF f (GlobTok.anySeq :: ts) s1)
  | f + 1, GlobTok.anyChar :: ts, _ :: s1 => globMatchF f ts s1
  | _ + 1, GlobTok.anyChar :: _, [] => false
  | f + 1, GlobTok.lit c :: ts, c1 :: s1 => c == c1 && globMatchF f ts s1
  | _ + 1, GlobTok.lit _ :: _, [] => false
  | f + 1, GlobTok.cls neg items :: ts, c1 :: s1 =>
      (neg != clsContains c1 items) && globMatchF f ts s1
  | _ + 1, GlobTok.cls _ _ :: _, [] => false

/-- Glob matching at its natural fuel (Pattern::matches). -/
def globMatch (ts : List GlobTok) (s : List Char) : Bool :=
  globMatchF (ts.length + s.length) ts s

/-- Rust str::contains with a string needle, on character lists. -/
def containsSub (s sub : List Char) : Bool :=
  match s with
  | [] => sub.isEmpty
  | c :: rest => List.isPrefixOf sub (c :: rest) || containsSub rest sub

/-- The legacy fallback of matches_pattern (utils.rs lines 61-80):
match-all for * and *.*, wildcard-at-edges, else literal equality. -/
def fallbackMatches (entry_name pattern : String) : Bool :=
  let e := entry_name.data
  let p := pattern.data
  if p == ['*'] || p == ['*', '.', '*'] then true
  else
    match p with
    | '*' :: suffix =>
        if p.getLast? == some '*' then
          containsSub e suffix.dropLast
        else
          List.isSuffixOf suffix e
    | _ =>
        if p.getLast? == some '*' then
          List.isPrefixOf p.dropLast e
        else
          entry_name == pattern

/-- utils.rs matches_pattern: accept if the glob-compiled pattern matches;
otherwise (no compile, or no match) fall back to the legacy matching. -/
def matches_pattern (entry_name pattern : String) : Bool :=
  (match globParse pattern.data with
   | some ts => globMatch ts entry_name.data
   | none => false)
  || fallbackMatches entry_name pattern

/-- OR of matches_pattern over the configured patterns (copy.rs lines
101-104). -/
def matchesAny (patterns : List String) (name : String) : Bool :=
  patterns.any (fun p => matches_pattern name p)

/-! ## The transfer decision (src/src/copy.rs, should_copy_file) -/
/-- should_copy_file (copy.rs lines 202-224): force-overwrite, or
destination absent, or source strictly newer, or same mtime with
different sizes. -/
def should_copy_file (src_meta : FileMeta) (dst_meta : Option FileMeta)
    (force_overwrite : Bool) : Bool :=
  if force_overwrite then true
  else
    match dst_meta with
    | none => true
    | some d =>
        if src_meta.mtime > d.mtime then true
        else if src_meta.mtime == d.mtime && src_meta.size != d.size then true
        else false

/-! ## The retry loop of copy_file (src/src/copy.rs lines 269-366)
The loop is modelled over two oracles: the outcome of each
copy_file_content attempt (none = Ok, some e = that I/O error) and the
value the top-of-loop progress.is_cancelled() poll returns at each
iteration.  Both are indexed by the iteration number.  The fuel argument
makes the recursion structural; copy_file_retry supplies fuel = retries,
which the loop can never exhaust because it exits as soon as the
incremented retry_count reaches retries (so the fuel-exhausted arm, kept
equal to the exhaustion exit, is unreachable). -/
/-- The observable outcome of one copy_file retry loop: the returned
result (none = Ok), how many content-copy attempts ran, the seconds slept
between attempts, the files_failed increment, and the log lines. -/
structure LoopOut where
  result : Option CopyErr
  attempts : Nat
  waits : List Nat
  failedCount : Nat
  logs : List LogEv
deriving DecidableEq, Repr

/-- One unrolling of the copy_file retry loop; rc is the current
retry_count, iter the iteration index.  The fuel-exhausted case (first
equation with the exhaustion exit collapsed in) is unreachable from
copy_file_retry, whose fuel is retries. -/
def copyFileGo (attempt : Nat → Option CopyErr) (cancelTop : Nat → Bool)
    (retries wait_time : Nat) : Nat → Nat → Nat → LoopOut
  | 0, _, iter =>
    if cancelTop iter then
      { result := none, attempts := 0, waits := [], failedCount := 0, logs := [] }
    else
      match attempt iter with
      | none =>
          { result := none, attempts := 1, waits := [], failedCount := 0, logs := [] }
      | some e =>
          { result := some e, attempts := 1, waits := [], failedCount := 1,
            logs := [LogEv.copyFailed retries e] }
  | f + 1, rc, iter =>
    if cancelTop iter then
      { result := none, attempts := 0, waits := [], failedCount := 0, logs := [] }
    else
      match attempt iter with
      | none =>
          { result := none, attempts := 1, waits := [], failedCount := 0, logs := [] }
      | some e =>
          if retries ≤ rc + 1 then
            { result := some e, attempts := 1, waits := [], failedCount := 1,
              logs := [LogEv.copyFailed retries e] }
          else
            let rest := copyFileGo attempt cancelTop retries wait_time f (rc + 1) (iter + 1)
            { result := rest.result
              attempts := rest.attempts + 1
              waits := wait_time :: rest.waits
              failedCount := rest.failedCount
              logs := LogEv.retryAttempt (rc + 1) retries e :: rest.logs }

/-- The copy_file retry loop from its entry state. -/
def copy_file_retry (attempt : Nat → Option CopyErr) (cancelTop : Nat → Bool)
    (retries wait_time : Nat) : LoopOut :=
  copyFileGo attempt cancelTop retries wait_time retries 0 0

/-! ## The chunked content copy (src/src/copy.rs lines 399-421)
Only the cancellation behaviour of the chunk loop is modelled here (the
data path is abstracted elsewhere): before reading each chunk the loop
polls is_cancelled() and, when it observes true, returns
Err(Interrupted, "Cancelled"). -/
/-- The chunk loop: chunks full reads remain; the poll index advances by
one per iteration, including the final zero-read iteration. -/
def contentPollGo (cancel : Nat → Bool) : Nat → Nat → Option CopyErr
  | 0, i => if cancel i then some CopyErr.interrupted else none
  | k + 1, i => if cancel i then some CopyErr.interrupted else contentPollGo cancel k (i + 1)

/-- Result of copy_file_content as a function of the cancellation stream:
none when the copy runs to completion, some Interrupted when a poll
observes cancellation. -/
def copy_file_content_poll (cancel : Nat → Bool) (chunks : Nat) : Option CopyErr :=
  contentPollGo cancel chunks 0

/-! ## Secure deletion (src/src/utils.rs, securely_delete_file)
The function is modelled by the trace of write/flush/unlink operations it
performs on the target file. -/
/-- What a wipe pass writes: one of the six fixed byte values, or the
final thread_rng random fill. -/
inductive WipeSrc where
  | fixed : Nat → WipeSrc
  | random : WipeSrc
deriving DecidableEq, Repr

/-- One event of the secure-deletion trace: a write_all of a chunk of the
given length from the given source, a flush, or the final remove_file. -/
inductive WipeEv where
  | write : WipeSrc → Nat → WipeEv
  | flush : WipeEv
  | unlink : WipeEv
deriving DecidableEq, Repr

/-- The 64 KiB overwrite buffer size of securely_delete_file. -/
def wipeBufferSize : Nat := 64 * 1024

/-- The six fixed overwrite byte values, in pass order (utils.rs line 92). -/
def fixedWipeValues : List Nat := [0xFF, 0x00, 0xAA, 0x55, 0xF0, 0x0F]

/-- The chunked write loop of one pass (seek to 0, then write_all chunks
of min(remaining, buffer) until remaining is 0).  Fuel-indexed for
structural recursion; each chunk writes at least one byte, so fuel =
initial remaining suffices and the fuel-exhausted arm is unreachable. -/
def wipeWritesF (src : WipeSrc) : Nat → Nat → List WipeEv
  | _, 0 => []
  | 0, _ + 1 => []
  | f + 1, r + 1 =>
      let to_write := min (r + 1) wipeBufferSize
      WipeEv.write src to_write :: wipeWritesF src f (r + 1 - to_write)

/-- The write events of one full pass over a file of the given size. -/
def wipeWrites (src : WipeSrc) (size : Nat) : List WipeEv :=
  wipeWritesF src size size

/-- The traces of the six fixed passes, each followed by its flush
(the for-loop over patterns, utils.rs lines 95-108). -/
def fixedPassesTrace (size : Nat) : List Nat → List WipeEv
  | [] => []
  | v :: rest =>
      wipeWrites (WipeSrc.fixed v) size ++ [WipeEv.flush] ++ fixedPassesTrace size rest

/-- securely_delete_file (utils.rs lines 83-130) as its operation trace:
six fixed passes with flushes, one random pass with a flush, then the
unlink. -/
def securely_delete_file_trace (file_size : Nat) : List WipeEv :=
  fixedPassesTrace file_size fixedWipeValues
    ++ wipeWrites WipeSrc.random file_size ++ [WipeEv.flush, WipeEv.unlink]

/-! ## CLI pattern defaulting (src/src/args.rs, CopyOptions::parse) -/
/-- The pattern list CopyOptions::parse produces from the positional
arguments (args.rs lines 139-146): the arguments beyond source and
destination, or the match-all default when there are none. -/
def cli_patterns (positional : List String) : List String :=
  if 2 < positional.length then positional.drop 2 else ["*.*"]

/-! ## The filesystem model
A filesystem node is a file or a directory, each carrying metadata (for a
directory, the metadata fs::metadata would report for its path); directory
contents are an association list of child name to node.  A destination
path that the walk works on is either an existing node or absent; an
absent path records whether create_dir_all could realize it (false when a
file occupies part of the path, in which case creating anything there
fails). -/
mutual

/-- A filesystem node. -/
inductive FsTree where
  | file : FileMeta → FsTree
  | dir : FileMeta → Entries → FsTree

/-- The named children of a directory, in readdir order. -/
inductive Entries where
  | nil : Entries
  | cons : String → FsTree → Entries → Entries

end

/-- A destination path as the walk sees it. -/
inductive DstSlot where
  | absent : Bool → DstSlot
  | present : FsTree → DstSlot

/-- The metadata of a node (fs::metadata on its path). -/
def FsTree.meta : FsTree → FileMeta
  | .file m => m
  | .dir m _ => m

/-- The child names of a directory listing, in order. -/
def Entries.names : Entries → List String
  | .nil => []
  | .cons n _ rest => n :: rest.names

/-- Association-list lookup of a child by name. -/
def Entries.lookup : Entries → String → Option FsTree
  | .nil, _ => none
  | .cons n t rest, k => if n = k then some t else rest.lookup k

/-- Replace the first child of the given name, or append a new one. -/
def Entries.setEntry : Entries → String → FsTree → Entries
  | .nil, n, t => .cons n t .nil
  | .cons n0 t0 rest, n, t =>
      if n0 = n then .cons n0 t rest else .cons n0 t0 (rest.setEntry n t)

/-- The association list as a plain list of pairs. -/
def Entries.toList : Entries → List (String × FsTree)
  | .nil => []
  | .cons n t rest => (n, t) :: rest.toList

/-- Whether the node is a directory with no children (read_dir().next()
is None). -/
def FsTree.isEmptyDir : FsTree → Bool
  | .dir _ .nil => true
  | _ => false

mutual

/-- Sibling names are distinct at every level (true of a real readdir). -/
def FsTree.wfB : FsTree → Bool
  | .file _ => true
  | .dir _ es => es.wfB

/-- Well-formedness of a child list. -/
def Entries.wfB : Entries → Bool
  | .nil => true
  | .cons n t rest => !(rest.names.contains n) && t.wfB && rest.wfB

end

/-- fs::metadata(dst_path).ok() for a destination path. -/
def DstSlot.meta : DstSlot → Option FileMeta
  | .absent _ => none
  | .present t => some t.meta

/-- dst_path.exists(). -/
def DstSlot.existsB : DstSlot → Bool
  | .absent _ => false
  | .present _ => true

/-- Well-formedness of a destination path view. -/
def DstSlot.wfB : DstSlot → Bool
  | .absent _ => true
  | .present t => t.wfB

/-- The destination path dst/name as a target for File::create: a child of
an existing directory (creatable when absent), unreachable below a file or
below an absent directory (File::create does not create parents). -/
def fileSlotOf (dst : DstSlot) (n : String) : DstSlot :=
  match dst with
  | .present (.dir _ es) =>
      match es.lookup n with
      | some t => .present t
      | none => .absent true
  | .present (.file _) => .absent false
  | .absent _ => .absent false

/-- The destination path dst/name as a target for a recursive
copy_directory call: as fileSlotOf, except that an absent chain stays
realizable for create_dir_all as long as no file blocks it. -/
def dirChildSlot (dst : DstSlot) (n : String) : DstSlot :=
  match dst with
  | .present (.dir _ es) =>
      match es.lookup n with
      | some t => .present t
      | none => .absent true
  | .present (.file _) => .absent false
  | .absent b => .absent b

/-- Write the result of working on dst/name back into dst.  Only write-backs
of realized nodes into an existing directory change anything; every path
through the model that produces a node wrote it below an existing
directory. -/
def setSlot (dst : DstSlot) (n : String) (slot : DstSlot) : DstSlot :=
  match dst, slot with
  | .present (.dir m es), .present t => .present (.dir m (es.setEntry n t))
  | d, _ => d

/-- The run configuration (src/src/args.rs CopyOptions, one run's policy
fields; source/destination path strings and the log-file path live in the
frontends).  force_overwrite and preserve_root are fields of the rbcp-core
crate's CopyOptions, whose args.rs is not in the tree; they are included
here because src/src/copy.rs reads options.force_overwrite and
src/rbcp-core/src/engine.rs reads options.preserve_root. -/
structure CopyOptions where
  patterns : List String := []
  recursive : Bool := false
  include_empty : Bool := false
  restartable : Bool := false
  backup_mode : Bool := false
  purge : Bool := false
  mirror : Bool := false
  move_files : Bool := false
  move_dirs : Bool := false
  attributes_add : String := ""
  attributes_remove : String := ""
  threads : Nat := 1
  retries : Nat := 1000000
  wait_time : Nat := 30
  list_only : Bool := false
  show_progress : Bool := true
  log_file_names : Bool := true
  empty_files : Bool := false
  child_only : Bool := false
  shred_files : Bool := false
  force_overwrite : Bool := false
  preserve_root : Bool := false
deriving DecidableEq, Repr

/-- The observable outcome of one copy_file call on one source file:
whether move semantics removed the source, the destination path after the
call, the counter increments, the log events, and the error it returned,
if any (the shared-counter and log effects a propagating error leaves
behind are part of the output). -/
structure FileOut where
  srcRemoved : Bool
  dst : DstSlot
  stats : Statistics
  logs : List LogEv
  err : Option CopyErr

/-- copy_file_content (copy.rs lines 371-425) under a constant-false
cancellation flag: File::create fails over an existing directory or on an
unrealizable path; otherwise the destination becomes a file of the copied
size (zero in empty-files mode), returned here for the caller to stamp. -/
def copy_file_content (o : CopyOptions) (dst : DstSlot) (src_meta : FileMeta) :
    Sum CopyErr Nat :=
  match dst with
  | .present (.dir _ _) => Sum.inl CopyErr.createFailed
  | .absent false => Sum.inl CopyErr.createFailed
  | .present (.file _) => Sum.inr (if o.empty_files then 0 else src_meta.size)
  | .absent true => Sum.inr (if o.empty_files then 0 else src_meta.size)

/-- copy_file (copy.rs lines 226-369) with a constant cancellation flag c:
check cancellation, decide with should_copy_file (skip is counted and not
logged), handle list-only (log and count, touch nothing), else log when
file logging is on and run the content copy; on success stamp the source
mtime onto the destination, count the copy with the source length, and
under move semantics delete (or securely delete, logging) the source; on
failure run the retry loop to exhaustion (the content-copy failure here is
deterministic, so every attempt fails alike). -/
def copy_file (o : CopyOptions) (c : Bool) (name : String) (src_meta : FileMeta)
    (dst : DstSlot) : FileOut :=
  if c then ⟨false, dst, Statistics.zero, [], none⟩
  else if !should_copy_file src_meta dst.meta o.force_overwrite then
    ⟨false, dst, { files_skipped := 1 }, [], none⟩
  else if o.list_only then
    ⟨false, dst, { files_copied := 1, bytes_copied := src_meta.size },
      [LogEv.wouldCopyFile name], none⟩
  else
    let preLogs := if o.log_file_names then [LogEv.copyingFile name] else []
    match copy_file_content o dst src_meta with
    | Sum.inr sz =>
        let moveLogs := if o.move_files && o.shred_files
          then [LogEv.securelyDeletedFile name] else []
        ⟨o.move_files, DstSlot.present (.file ⟨src_meta.mtime, sz⟩),
          { files_copied := 1, bytes_copied := src_meta.size },
          preLogs ++ moveLogs, none⟩
    | Sum.inl e =>
        let lo := copy_file_retry (fun _ => some e) (fun _ => false) o.retries o.wait_time
        ⟨false, dst, { files_failed := lo.failedCount }, preLogs ++ lo.logs, lo.result⟩

/-- The outcome of the purge pass over a destination listing: the
surviving children, the counter increments and the log events. -/
structure PurgeOut where
  dst : Entries
  stats : Statistics
  logs : List LogEv

/-- The purge pass (copy.rs lines 146-196): delete every destination child
whose name is not among the source names captured before the walk of this
directory; files and directories are counted separately, and shred mode
uses the secure eraser. -/
def purge_entries (o : CopyOptions) (c : Bool) (src_names : List String) :
    Entries → PurgeOut
  | .nil => ⟨.nil, Statistics.zero, []⟩
  | .cons n t rest =>
      let po := purge_entries o c src_names rest
      if c then ⟨.cons n t po.dst, po.stats, po.logs⟩
      else if src_names.contains n then ⟨.cons n t po.dst, po.stats, po.logs⟩
      else
        match t with
        | .file _ =>
            ⟨po.dst, { files_removed := 1 } + po.stats,
              (if o.shred_files
               then [LogEv.removingFile n true, LogEv.securelyDeletedFile n]
               else [LogEv.removingFile n false]) ++ po.logs⟩
        | .dir _ _ =>
            ⟨po.dst, { dirs_removed := 1 } + po.stats,
              (if o.shred_files
               then [LogEv.removingDir n true]
               else [LogEv.removingDir n false]) ++ po.logs⟩

/-- The outcome of one copy_directory call: the source subtree after the
call (move semantics can drain it), whether the call deleted the source
node itself (single-file sources under move semantics), the destination
path after the call, counter increments, log events, whether the call ran
fs::create_dir_all for a missing parent of a single-file destination, and
the error the call returned, if any. -/
structure DirOut where
  src : FsTree
  srcRemoved : Bool
  dst : DstSlot
  stats : Statistics
  logs : List LogEv
  mkdirp : Bool
  err : Option CopyErr

/-- The outcome of the walk over one directory's source entries. -/
structure ProcOut where
  src : Entries
  dst : DstSlot
  stats : Statistics
  logs : List LogEv
  err : Option CopyErr

mutual

/-- copy_directory (copy.rs lines 14-200) with a constant cancellation
flag c.  A file source (lines 29-62) is copied into an existing
destination directory under its own name, or onto the destination path
itself, after fs::create_dir_all on a missing destination parent — a call
the code does not guard with list_only.  A directory source ensures the
destination directory exists (logged, and counted, also in list-only
mode, where nothing is created), walks its entries, and finally, when
purge or mirror is set and not in list-only mode, purges destination
children absent from the captured source names (a destination that is not
a readable directory is silently skipped, matching the if-let around
read_dir). -/
def copy_directory (o : CopyOptions) (c : Bool) (src_name : String) (src : FsTree)
    (dst : DstSlot) (dst_parent_present : Bool) : DirOut :=
  if c then ⟨src, false, dst, Statistics.zero, [], false, none⟩
  else
    match src with
    | .file m =>
        match dst with
        | .present (.dir dm des) =>
            let fo := copy_file o c src_name m (fileSlotOf (.present (.dir dm des)) src_name)
            ⟨.file m, fo.srcRemoved, setSlot (.present (.dir dm des)) src_name fo.dst,
              fo.stats, fo.logs, false, fo.err⟩
        | .present (.file f) =>
            let fo := copy_file o c src_name m (.present (.file f))
            ⟨.file m, fo.srcRemoved, fo.dst, fo.stats, fo.logs, false, fo.err⟩
        | .absent creatable =>
            if dst_parent_present then
              let fo := copy_file o c src_name m (.absent creatable)
              ⟨.file m, fo.srcRemoved, fo.dst, fo.stats, fo.logs, false, fo.err⟩
            else if creatable then
              let fo := copy_file o c src_name m (.absent true)
              ⟨.file m, fo.srcRemoved, fo.dst, fo.stats, fo.logs, true, fo.err⟩
            else
              ⟨.file m, false, .absent false, Statistics.zero, [], false,
                some CopyErr.createFailed⟩
    | .dir m es =>
        let created : DstSlot × Statistics × List LogEv × Option CopyErr :=
          match dst with
          | .present t => (.present t, Statistics.zero, [], none)
          | .absent b =>
              if !o.list_only then
                if b then
                  (.present (.dir ⟨0, 0⟩ .nil), { dirs_created := 1 },
                    [LogEv.creatingDir src_name], none)
                else
                  (.absent b, Statistics.zero, [LogEv.creatingDir src_name],
                    some CopyErr.createFailed)
              else
                (.absent b, { dirs_created := 1 }, [LogEv.wouldCreateDir src_name], none)
        match created.2.2.2 with
        | some e => ⟨.dir m es, false, created.1, created.2.1, created.2.2.1, false, some e⟩
        | none =>
            let src_names := es.names
            let po := process_entries o c es created.1
            match po.err with
            | some e =>
                ⟨.dir m po.src, false, po.dst, created.2.1 + po.stats,
                  created.2.2.1 ++ po.logs, false, some e⟩
            | none =>
                if (o.purge || o.mirror) && !o.list_only then
                  match po.dst with
                  | .present (.dir dm2 des2) =>
                      let pu := purge_entries o c src_names des2
                      ⟨.dir m po.src, false, .present (.dir dm2 pu.dst),
                        created.2.1 + po.stats + pu.stats,
                        created.2.2.1 ++ po.logs ++ pu.logs, false, none⟩
                  | other =>
                      ⟨.dir m po.src, false, other, created.2.1 + po.stats,
                        created.2.2.1 ++ po.logs, false, none⟩
                else
                  ⟨.dir m po.src, false, po.dst, created.2.1 + po.stats,
                    created.2.2.1 ++ po.logs, false, none⟩

/-- The walk over the source entries of one directory (the process_entry
closure and its try_for_each, copy.rs lines 91-144, sequential): each
entry first checks cancellation; a file entry matching some pattern is
copied (and dropped from the source under move semantics); a directory
entry, under recursion, is skipped when empty and empty directories are
excluded, else recursed into and, under move-dirs outside list-only mode,
removed when the recursion drained it.  The first error stops the walk
and propagates. -/
def process_entries (o : CopyOptions) (c : Bool) (es : Entries) (dst : DstSlot) : ProcOut :=
  match es with
  | .nil => ⟨.nil, dst, Statistics.zero, [], none⟩
  | .cons n t rest =>
      if c then
        let po := process_entries o c rest dst
        ⟨.cons n t po.src, po.dst, po.stats, po.logs, po.err⟩
      else
        match t with
        | .file fm =>
            if matchesAny o.patterns n then
              let fo := copy_file o c n fm (fileSlotOf dst n)
              match fo.err with
              | some e =>
                  ⟨.cons n t rest, setSlot dst n fo.dst, fo.stats, fo.logs, some e⟩
              | none =>
                  let dst1 := setSlot dst n fo.dst
                  let po := process_entries o c rest dst1
                  ⟨if fo.srcRemoved then po.src else .cons n t po.src,
                    po.dst, fo.stats + po.stats, fo.logs ++ po.logs, po.err⟩
            else
              let po := process_entries o c rest dst
              ⟨.cons n t po.src, po.dst, po.stats, po.logs, po.err⟩
        | .dir dm dirEs =>
            if o.recursive then
              if !o.include_empty && (FsTree.dir dm dirEs).isEmptyDir then
                let po := process_entries o c rest dst
                ⟨.cons n t po.src, po.dst, { dirs_skipped := 1 } + po.stats,
                  (if o.log_file_names then [LogEv.skippingEmptyDir n] else []) ++ po.logs,
                  po.err⟩
              else
                let ro := copy_directory o c n (.dir dm dirEs) (dirChildSlot dst n)
                  dst.existsB
                match ro.err with
                | some e =>
                    ⟨.cons n ro.src rest, setSlot dst n ro.dst, ro.stats, ro.logs, some e⟩
                | none =>
                    let dropSrcDir := o.move_dirs && !o.list_only && ro.src.isEmptyDir
                    let dst1 := setSlot dst n ro.dst
                    let po := process_entries o c rest dst1
                    ⟨if dropSrcDir then po.src else .cons n ro.src po.src,
                      po.dst, ro.stats + po.stats, ro.logs ++ po.logs, po.err⟩
            else
              let po := process_entries o c rest dst
              ⟨.cons n t po.src, po.dst, po.stats, po.logs, po.err⟩

end

/-! ## The engine run (src/rbcp-core/src/engine.rs, CopyEngine::run)
The rbcp-core engine first checks its preconditions: every source path
must exist, and the canonicalized destination must not start with a
canonicalized source path (lines 31-55); fs::canonicalize yields None for
a path it cannot resolve, and the nested-destination check only fires
when both canonical forms are available, exactly as the if-let in the
code.  Only after both checks does the run touch the filesystem: it
creates a missing destination directory, then walks every source
(child-only mode walks each source's child directories instead), summing
the statistics; the first propagated I/O error ends the run. -/
/-- A path as the precondition phase sees it: whether it exists, and its
canonical form (None when fs::canonicalize fails). -/
structure PathSpec where
  present : Bool
  canonical : Option (List String)
deriving DecidableEq, Repr

/-- The two precondition errors, with the index of the offending source. -/
inductive PreErr where
  | sourceMissing : Nat → PreErr
  | destInsideSource : Nat → PreErr
deriving DecidableEq, Repr

/-- The for-loop over sources of the precondition phase. -/
def precondition_go (destCanonical : Option (List String)) :
    Nat → List PathSpec → Option PreErr
  | _, [] => none
  | i, s :: rest =>
      if !s.present then some (PreErr.sourceMissing i)
      else
        match s.canonical, destCanonical with
        | some cs, some cd =>
            if List.isPrefixOf cs cd then some (PreErr.destInsideSource i)
            else precondition_go destCanonical (i + 1) rest
        | _, _ => precondition_go destCanonical (i + 1) rest

/-- The precondition phase over all sources. -/
def precondition_check (sources : List PathSpec) (destCanonical : Option (List String)) :
    Option PreErr :=
  precondition_go destCanonical 0 sources

/-- An error a run can end with: a precondition error, or a propagated
I/O error from the walk. -/
inductive EngineErr where
  | pre : PreErr → EngineErr
  | io : CopyErr → EngineErr
deriving DecidableEq, Repr

/-- One configured source: its path facts for the precondition phase, its
file name, and the subtree it holds. -/
structure SourceIn where
  spec : PathSpec
  name : String
  tree : FsTree

/-- What a run returns: the destination it left behind, the final summed
statistics, and the error it surfaced, if any. -/
structure EngineOut where
  dst : DstSlot
  stats : Statistics
  err : Option EngineErr

/-- Child-only processing of one source directory (engine.rs lines
189-232): walk its entries and run copy_directory on each child that is a
directory, stopping at the first error. -/
def engine_children (o : CopyOptions) (c : Bool) :
    Entries → DstSlot → DstSlot × Statistics × Option CopyErr
  | .nil, dst => (dst, Statistics.zero, none)
  | .cons n t rest, dst =>
      match t with
      | .dir dm des =>
          let ro := copy_directory o c n (.dir dm des) (dirChildSlot dst n) dst.existsB
          match ro.err with
          | some e => (setSlot dst n ro.dst, ro.stats, some e)
          | none =>
              let out := engine_children o c rest (setSlot dst n ro.dst)
              (out.1, ro.stats + out.2.1, out.2.2)
      | .file _ => engine_children o c rest dst

/-- The walk over all sources (engine.rs lines 189-251): child-only mode
walks child directories; otherwise each source is copied to the
destination, under its own name when preserve_root is set for a directory
source.  destParentPresent tells whether the destination path's parent
directory exists (it only matters to single-file sources). -/
def engine_sources (o : CopyOptions) (c : Bool) (destParentPresent : Bool) :
    List SourceIn → DstSlot → DstSlot × Statistics × Option CopyErr
  | [], dst => (dst, Statistics.zero, none)
  | s :: rest, dst =>
      if o.child_only then
        match s.tree with
        | .dir _ des =>
            let out := engine_children o c des dst
            match out.2.2 with
            | some e => (out.1, out.2.1, some e)
            | none =>
                let out2 := engine_sources o c destParentPresent rest out.1
                (out2.1, out.2.1 + out2.2.1, out2.2.2)
        | .file _ => engine_sources o c destParentPresent rest dst
      else
        match o.preserve_root, s.tree with
        | true, .dir dm des =>
            let ro := copy_directory o c s.name (.dir dm des) (dirChildSlot dst s.name)
              dst.existsB
            match ro.err with
            | some e => (setSlot dst s.name ro.dst, ro.stats, some e)
            | none =>
                let out2 := engine_sources o c destParentPresent rest
                  (setSlot dst s.name ro.dst)
                (out2.1, ro.stats + out2.2.1, out2.2.2)
        | _, _ =>
            let ro := copy_directory o c s.name s.tree dst destParentPresent
            match ro.err with
            | some e => (ro.dst, ro.stats, some e)
            | none =>
                let out2 := engine_sources o c destParentPresent rest ro.dst
                (out2.1, ro.stats + out2.2.1, out2.2.2)

/-- CopyEngine::run of rbcp-core: preconditions first (touching no
filesystem state), then destination creation, then the source walk;
the run returns the summed statistics and the first surfaced error. -/
def engine_run (o : CopyOptions) (c : Bool) (sources : List SourceIn)
    (destCanonical : Option (List String)) (dst : DstSlot)
    (destParentPresent : Bool) : EngineOut :=
  match precondition_check (sources.map (fun s => s.spec)) destCanonical with
  | some p => ⟨dst, Statistics.zero, some (EngineErr.pre p)⟩
  | none =>
      match dst with
      | .absent b =>
          if !o.list_only then
            if b then
              let out := engine_sources o c destParentPresent sources
                (.present (.dir ⟨0, 0⟩ .nil))
              ⟨out.1, out.2.1, out.2.2.map EngineErr.io⟩
            else
              ⟨dst, Statistics.zero, some (EngineErr.io CopyErr.createFailed)⟩
          else
            let out := engine_sources o c destParentPresent sources (.absent b)
            ⟨out.1, out.2.1, out.2.2.map EngineErr.io⟩
      | .present t =>
          let out := engine_sources o c destParentPresent sources (.present t)
          ⟨out.1, out.2.1, out.2.2.map EngineErr.io⟩

/-! ## Auxiliary functions used only to state and check the claims -/
/-- The segments of a trace between its flushes (the last segment is what
follows the final flush). -/
def splitOnFlush : List WipeEv → List (List WipeEv)
  | [] => [[]]
  | WipeEv.flush :: rest => [] :: splitOnFlush rest
  | e :: rest =>
      match splitOnFlush rest with
      | seg :: segs => (e :: seg) :: segs
      | [] => [[e]]

/-- Total bytes written by the write events of a trace. -/
def wipeLenSum : List WipeEv → Nat
  | [] => 0
  | WipeEv.write _ k :: rest => k + wipeLenSum rest
  | WipeEv.flush :: rest => wipeLenSum rest
  | WipeEv.unlink :: rest => wipeLenSum rest

/-- The transfer condition as the specification words it: destination
absent, or source strictly newer, or equal mtimes with differing sizes. -/
def claimShouldCopy (src_meta : FileMeta) : Option FileMeta → Prop
  | none => True
  | some d =>
      d.mtime < src_meta.mtime ∨ (src_meta.mtime = d.mtime ∧ src_meta.size ≠ d.size)

instance (m : FileMeta) : (dm : Option FileMeta) → Decidable (claimShouldCopy m dm)
  | none => isTrue trivial
  | some _ => inferInstanceAs (Decidable (_ ∨ _))

/-- The child names of a destination directory node (empty for any other
destination state). -/
def dstNames : DstSlot → List String
  | .present (.dir _ es) => es.names
  | _ => []

/-- The names of the file children that match at least one configured
pattern — the name-set the mirror-closure claim compares against. -/
def matchingFileNames (o : CopyOptions) : Entries → List String
  | .nil => []
  | .cons n t rest =>
      match t with
      | .file _ =>
          if matchesAny o.patterns n then n :: matchingFileNames o rest
          else matchingFileNames o rest
      | .dir _ _ => matchingFileNames o rest

/-- The condition under which the precondition phase rejects a run: some
source is missing, or some source and the destination both canonicalize
and the destination lies inside that source. -/
def preViolation (sources : List PathSpec) (destCanonical : Option (List String)) : Prop :=
  ∃ s ∈ sources, s.present = false ∨
    (∃ cs cd, s.canonical = some cs ∧ destCanonical = some cd ∧
      List.isPrefixOf cs cd = true)

@[simp] theorem Statistics.add_dirs_created (a b : Statistics) :
    (a + b).dirs_created = a.dirs_created + b.dirs_created := rfl
@[simp] theorem Statistics.add_files_copied (a b : Statistics) :
    (a + b).files_copied = a.files_copied + b.files_copied := rfl
@[simp] theorem Statistics.add_bytes_copied (a b : Statistics) :
    (a + b).bytes_copied = a.bytes_copied + b.bytes_copied := rfl
@[simp] theorem Statistics.add_dirs_skipped (a b : Statistics) :
    (a + b).dirs_skipped = a.dirs_skipped + b.dirs_skipped := rfl
@[simp] theorem Statistics.add_files_skipped (a b : Statistics) :
    (a + b).files_skipped = a.files_skipped + b.files_skipped := rfl
@[simp] theorem Statistics.add_files_failed (a b : Statistics) :
    (a + b).files_failed = a.files_failed + b.files_failed := rfl
@[simp] theorem Statistics.add_dirs_removed (a b : Statistics) :
    (a + b).dirs_removed = a.dirs_removed + b.dirs_removed := rfl
@[simp] theorem Statistics.add_files_removed (a b : Statistics) :
    (a + b).files_removed = a.files_removed + b.files_removed := rfl
@[simp] theorem Statistics.zero_dirs_created : Statistics.zero.dirs_created = 0 := rfl
@[simp] theorem Statistics.zero_files_copied : Statistics.zero.files_copied = 0 := rfl
@[simp] theorem Statistics.zero_bytes_copied : Statistics.zero.bytes_copied = 0 := rfl
@[simp] theorem Statistics.zero_dirs_skipped : Statistics.zero.dirs_skipped = 0 := rfl
@[simp] theorem Statistics.zero_files_skipped : Statistics.zero.files_skipped = 0 := rfl
@[simp] theorem Statistics.zero_files_failed : Statistics.zero.files_failed = 0 := rfl
@[simp] theorem Statistics.zero_dirs_removed : Statistics.zero.dirs_removed = 0 := rfl
@[simp] theorem Statistics.zero_files_removed : Statistics.zero.files_removed = 0 := rfl
/-- Whether a node is a file. -/
def FsTree.isFile : FsTree → Bool
  | .file _ => true
  | .dir _ _ => false

/-- Whether a node is a directory. -/
def FsTree.isDir : FsTree → Bool
  | .file _ => false
  | .dir _ _ => true

mutual

/-- Size of a tree, for strong-induction arguments. -/
def FsTree.sz : FsTree → Nat
  | .file _ => 1
  | .dir _ es => 1 + es.sz

/-- Size of a child list. -/
def Entries.sz : Entries → Nat
  | .nil => 0
  | .cons _ t rest => 1 + t.sz + rest.sz

end

/-- The options of a /MIR run filtered to *.txt, with one retry. -/
def mirrorTxtOptions : CopyOptions :=
  { patterns := ["*.txt"], recursive := true, include_empty := true, purge := true,
    retries := 1 }

/-- The file-transfer counters (the ones only copy_file moves) are all
zero. -/
def fileCountersZero (s : Statistics) : Prop :=
  s.files_copied = 0 ∧ s.files_skipped = 0 ∧ s.files_failed = 0 ∧ s.bytes_copied = 0

/-- Two destination views with the same shell: both absent alike, both the
same file, or both directories with the same metadata. -/
def shapeLike (d1 d2 : DstSlot) : Prop :=
  match d1, d2 with
  | DstSlot.absent b, DstSlot.absent b2 => b = b2
  | DstSlot.present (FsTree.file f), DstSlot.present (FsTree.file f2) => f = f2
  | DstSlot.present (FsTree.dir dm _), DstSlot.present (FsTree.dir dm2 _) => dm = dm2
  | _, _ => False

/-! ## General lemmas -/
theorem globMatchF_lit : ∀ (f : Nat) (cs s : List Char), cs.length + s.length ≤ f →
    (globMatchF f (cs.map GlobTok.lit) s = true ↔ s = cs) := by
  intro f
  induction f with
  | zero =>
      intro cs s h
      match cs, s with
      | [], [] => simp [globMatchF]
      | [], _ :: _ => simp at h
      | _ :: _, _ => simp at h
  | succ f ih =>
      intro cs s h
      match cs, s with
      | [], [] => simp [globMatchF]
      | [], c1 :: s1 => simp [globMatchF]
      | c :: cs1, [] => simp [globMatchF]
      | c :: cs1, c1 :: s1 =>
          have hb : cs1.length + s1.length ≤ f := by
            simp only [List.length_cons] at h; omega
          simp [globMatchF, ih cs1 s1 hb, List.cons_eq_cons]
          intro _
          constructor
          · intro hc; exact hc.symm
          · intro hc; exact hc.symm

theorem copyFileGo_fail_fields (e : CopyErr) (retries w : Nat) :
    ∀ (f rc iter : Nat),
      (copyFileGo (fun _ => some e) (fun _ => false) retries w f rc iter).failedCount = 1 ∧
      (copyFileGo (fun _ => some e) (fun _ => false) retries w f rc iter).result = some e := by
  intro f
  induction f with
  | zero =>
      intro rc iter
      simp [copyFileGo]
  | succ f ih =>
      intro rc iter
      by_cases hr : retries ≤ rc + 1
      · simp [copyFileGo, hr]
      · have := ih (rc + 1) (iter + 1)
        simp [copyFileGo, hr, this.1, this.2]

theorem range_map_shift {α : Type} (n : Nat) (g : Nat → α) :
    (List.range (n + 1)).map g = g 0 :: (List.range n).map (fun k => g (k + 1)) := by
  rw [List.range_succ_eq_map, List.map_cons, List.map_map]
  rfl

theorem copyFileGo_all_fail (e : CopyErr) (w retries : Nat) :
    ∀ (f rc iter : Nat), rc + 1 ≤ retries → retries ≤ rc + f + 1 →
      copyFileGo (fun _ => some e) (fun _ => false) retries w f rc iter =
        { result := some e
          attempts := retries - rc
          waits := List.replicate (retries - rc - 1) w
          failedCount := 1
          logs := (List.range (retries - rc - 1)).map
              (fun k => LogEv.retryAttempt (rc + k + 1) retries e)
            ++ [LogEv.copyFailed retries e] } := by
  intro f
  induction f with
  | zero =>
      intro rc iter h1 h2
      have hr : retries = rc + 1 := by omega
      subst hr
      simp [copyFileGo]
  | succ f ih =>
      intro rc iter h1 h2
      by_cases hr : retries ≤ rc + 1
      · have hr1 : retries = rc + 1 := by omega
        subst hr1
        simp [copyFileGo]
      · have hrec := ih (rc + 1) (iter + 1) (by omega) (by omega)
        have hn : retries - rc - 1 = (retries - (rc + 1) - 1) + 1 := by omega
        have hatt : retries - rc = (retries - (rc + 1)) + 1 := by omega
        have hm : retries - rc - 1 = (retries - (rc + 1) - 1) + 1 := by omega
        simp only [copyFileGo, hr, if_false, Bool.false_eq_true, if_neg, hrec, hatt]
        simp only [LoopOut.mk.injEq, true_and, and_true]
        obtain ⟨t, ht⟩ : ∃ t, retries - (rc + 1) = t + 1 := ⟨retries - (rc + 1) - 1, by omega⟩
        rw [ht]
        refine ⟨?_, ?_⟩
        · simp [List.replicate_succ]
        · simp only [Nat.add_sub_cancel, range_map_shift, List.cons_append]
          have hmap : (fun k => LogEv.retryAttempt (rc + 1 + k + 1) retries e)
              = (fun k => LogEv.retryAttempt (rc + (k + 1) + 1) retries e) := by
            funext k
            congr 1
            omega
          rw [hmap]

/-! ## Claim theorems -/
/-- C2 counterexample: with retries configured as 0, a permanently failing
transfer is still attempted once, not zero times as the claim's
"attempted exactly retries times" demands. -/
theorem C2_counterexample_zero_retries :
    (copy_file_retry (fun _ => some CopyErr.createFailed) (fun _ => false) 0 30).attempts
      ≠ 0 := by
  decide

/-- C2 (amended: for every retries value of at least 1): a transfer whose
every attempt fails, with cancellation never observed, runs exactly
retries content-copy attempts, sleeps wait_time seconds between each
consecutive pair, counts the file failed once, logs each retry with its
attempt number and the error and the final failure with the configured
retry count and the error, and returns the error to the caller. -/
theorem C2_retry_exhaustion (attempt : Nat → Option CopyErr) (cancelTop : Nat → Bool)
    (e : CopyErr) (retries w : Nat)
    (hret : 1 ≤ retries)
    (hatt : ∀ i, attempt i = some e)
    (hcan : ∀ i, cancelTop i = false) :
    copy_file_retry attempt cancelTop retries w =
      { result := some e
        attempts := retries
        waits := List.replicate (retries - 1) w
        failedCount := 1
        logs := (List.range (retries - 1)).map
            (fun k => LogEv.retryAttempt (k + 1) retries e)
          ++ [LogEv.copyFailed retries e] } := by
  have ha : attempt = fun _ => some e := funext hatt
  have hc : cancelTop = fun _ => false := funext hcan
  subst ha hc
  have h := copyFileGo_all_fail e w retries retries 0 0 (by omega) (by omega)
  rw [copy_file_retry, h]
  simp

/-- C2 witness: the amended theorem at retries = 3, wait 7 seconds. -/
theorem C2_retry_exhaustion_witness :
    copy_file_retry (fun _ => some CopyErr.createFailed) (fun _ => false) 3 7 =
      { result := some CopyErr.createFailed
        attempts := 3
        waits := List.replicate 2 7
        failedCount := 1
        logs := (List.range 2).map
            (fun k => LogEv.retryAttempt (k + 1) 3 CopyErr.createFailed)
          ++ [LogEv.copyFailed 3 CopyErr.createFailed] } :=
  C2_retry_exhaustion _ _ CopyErr.createFailed 3 7 (by omega) (fun _ => rfl) (fun _ => rfl)

/-- C5: the code contradicts the claim.  When cancellation is first
observed inside the chunk loop of copy_file_content, the observation
surfaces as Err(Interrupted): with retries = 1 the call logs a failure
line after the observation, counts the file failed, and returns the error
(not Ok); with retries = 2 the call emits a retry log line and a 30-second
sleep after the observation before the top-of-loop check finally returns
Ok. -/
theorem C5_cancel_observation_leaks :
    copy_file_content_poll (fun _ => true) 2 = some CopyErr.interrupted ∧
    copy_file_retry (fun _ => some CopyErr.interrupted) (fun i => decide (1 ≤ i)) 1 30 =
      { result := some CopyErr.interrupted, attempts := 1, waits := [], failedCount := 1,
        logs := [LogEv.copyFailed 1 CopyErr.interrupted] } ∧
    copy_file_retry (fun _ => some CopyErr.interrupted) (fun i => decide (1 ≤ i)) 2 30 =
      { result := none, attempts := 1, waits := [30], failedCount := 0,
        logs := [LogEv.retryAttempt 1 2 CopyErr.interrupted] } := by
  decide

/-- C9: the pattern-literal examples of the specification, including that
the literal pattern "readme" accepts the name "readme" and no other. -/
theorem C9_pattern_literals :
    matches_pattern "a.txt" "*.txt" = true ∧
    matches_pattern "a.txtx" "*.txt" = false ∧
    matches_pattern "report_final" "report*" = true ∧
    matches_pattern "xxmidyy" "*mid*" = true ∧
    matches_pattern "readme" "readme" = true ∧
    (∀ s : String, matches_pattern s "readme" = true ↔ s = "readme") := by
  refine ⟨by decide, by decide, by decide, by decide, by decide, ?_⟩
  intro s
  have hu : matches_pattern s "readme" =
      (globMatch (("readme".data).map GlobTok.lit) s.data || (s == "readme")) := rfl
  rw [hu, Bool.or_eq_true, globMatch]
  constructor
  · rintro (hg | hb)
    · have := (globMatchF_lit _ "readme".data s.data (by simp)).mp hg
      exact String.ext this
    · exact eq_of_beq hb
  · intro hs
    subst hs
    exact Or.inr (by decide)

/-- C1: with force-overwrite off, should_copy_file holds exactly under the
claimed condition (destination absent, or source strictly newer, or equal
mtimes with differing sizes); when the condition fails the file is
skipped — the call leaves the destination untouched, increments only the
skipped counter, logs nothing and returns no error — and when it holds
the file is not counted skipped and is counted exactly once as either
copied or failed. -/
theorem C1_transfer_decision (o : CopyOptions) (name : String) (m : FileMeta)
    (dst : DstSlot) (hf : o.force_overwrite = false) :
    (should_copy_file m dst.meta o.force_overwrite = true ↔ claimShouldCopy m dst.meta) ∧
    (¬ claimShouldCopy m dst.meta →
      copy_file o false name m dst =
        { srcRemoved := false, dst := dst, stats := { files_skipped := 1 },
          logs := [], err := none }) ∧
    (claimShouldCopy m dst.meta →
      (copy_file o false name m dst).stats.files_skipped = 0 ∧
      (copy_file o false name m dst).stats.files_copied +
        (copy_file o false name m dst).stats.files_failed = 1) := by
  have hiff : should_copy_file m dst.meta o.force_overwrite = true ↔
      claimShouldCopy m dst.meta := by
    rw [hf]
    rcases dst.meta with _ | d
    · simp [should_copy_file, claimShouldCopy]
    · show should_copy_file m (some d) false = true ↔ _
      constructor
      · intro h
        by_cases h1 : d.mtime < m.mtime
        · exact Or.inl h1
        · by_cases h2 : m.mtime = d.mtime ∧ m.size ≠ d.size
          · exact Or.inr h2
          · exfalso
            have hb : (m.mtime == d.mtime && m.size != d.size) = false := by
              rcases Bool.eq_false_or_eq_true (m.mtime == d.mtime && m.size != d.size)
                with hx | hx
              · exfalso
                apply h2
                simpa [Bool.and_eq_true, beq_iff_eq, bne_iff_ne] using hx
              · exact hx
            have hs : should_copy_file m (some d) false = false := by
              show (if m.mtime > d.mtime then true
                else if m.mtime == d.mtime && m.size != d.size then true else false) = false
              rw [if_neg h1, if_neg (by simp [hb])]
            rw [hs] at h
            exact Bool.false_ne_true h
      · rintro (h1 | h2)
        · show (if m.mtime > d.mtime then true
            else if m.mtime == d.mtime && m.size != d.size then true else false) = true
          rw [if_pos h1]
        · have h1 : ¬ m.mtime > d.mtime := by
            have := h2.1
            omega
          have hb : (m.mtime == d.mtime && m.size != d.size) = true := by
            simp [Bool.and_eq_true, beq_iff_eq, bne_iff_ne, h2.1, h2.2]
          show (if m.mtime > d.mtime then true
            else if m.mtime == d.mtime && m.size != d.size then true else false) = true
          rw [if_neg h1, if_pos (by simp [hb])]
  refine ⟨hiff, ?_, ?_⟩
  · intro hnc
    have hsc : should_copy_file m dst.meta o.force_overwrite = false := by
      rcases Bool.eq_false_or_eq_true (should_copy_file m dst.meta o.force_overwrite)
        with h | h
      · exact absurd (hiff.mp h) hnc
      · exact h
    simp [copy_file, hsc]
  · intro hc
    have hsc : should_copy_file m dst.meta o.force_overwrite = true := hiff.mpr hc
    by_cases hl : o.list_only
    · simp [copy_file, hsc, hl]
    · rcases hcc : copy_file_content o dst m with e | sz
      · have hff := copyFileGo_fail_fields e o.retries o.wait_time o.retries 0 0
        simp [copy_file, hsc, hl, hcc, copy_file_retry, hff.1]
      · simp [copy_file, hsc, hl, hcc]

/-- C1 witness: the decision at a concrete pair — a source file of mtime 5
and size 2 against an absent destination (the condition holds, and the
call counts one copy) — with force-overwrite off. -/
theorem C1_transfer_decision_witness :
    (should_copy_file ⟨5, 2⟩ (DstSlot.absent true).meta
        ({ patterns := ["*.*"], retries := 1 } : CopyOptions).force_overwrite = true ↔
      claimShouldCopy ⟨5, 2⟩ (DstSlot.absent true).meta) ∧
    (¬ claimShouldCopy ⟨5, 2⟩ (DstSlot.absent true).meta →
      copy_file { patterns := ["*.*"], retries := 1 } false "a.txt" ⟨5, 2⟩
          (DstSlot.absent true) =
        { srcRemoved := false, dst := DstSlot.absent true,
          stats := { files_skipped := 1 }, logs := [], err := none }) ∧
    (claimShouldCopy ⟨5, 2⟩ (DstSlot.absent true).meta →
      (copy_file { patterns := ["*.*"], retries := 1 } false "a.txt" ⟨5, 2⟩
          (DstSlot.absent true)).stats.files_skipped = 0 ∧
      (copy_file { patterns := ["*.*"], retries := 1 } false "a.txt" ⟨5, 2⟩
          (DstSlot.absent true)).stats.files_copied +
        (copy_file { patterns := ["*.*"], retries := 1 } false "a.txt" ⟨5, 2⟩
          (DstSlot.absent true)).stats.files_failed = 1) :=
  C1_transfer_decision { patterns := ["*.*"], retries := 1 } "a.txt" ⟨5, 2⟩
    (DstSlot.absent true) rfl

theorem wipeWritesF_mem (src : WipeSrc) : ∀ (f r : Nat) (ev : WipeEv),
    ev ∈ wipeWritesF src f r →
    ∃ k, ev = WipeEv.write src k ∧ 1 ≤ k ∧ k ≤ wipeBufferSize := by
  intro f
  induction f with
  | zero =>
      intro r ev h
      cases r <;> simp [wipeWritesF] at h
  | succ f ih =>
      intro r ev h
      cases r with
      | zero => simp [wipeWritesF] at h
      | succ r =>
          simp only [wipeWritesF, List.mem_cons] at h
          rcases h with h | h
          · refine ⟨min (r + 1) wipeBufferSize, h, ?_, Nat.min_le_right _ _⟩
            have : 1 ≤ wipeBufferSize := by norm_num [wipeBufferSize]
            omega
          · exact ih _ ev h

theorem wipeWrites_no_flush (src : WipeSrc) (N : Nat) :
    ∀ ev ∈ wipeWrites src N, ev ≠ WipeEv.flush := by
  intro ev h
  rcases wipeWritesF_mem src N N ev h with ⟨k, hk, -⟩
  subst hk
  intro hx
  cases hx

theorem wipeWrites_no_unlink (src : WipeSrc) (N : Nat) :
    ∀ ev ∈ wipeWrites src N, ev ≠ WipeEv.unlink := by
  intro ev h
  rcases wipeWritesF_mem src N N ev h with ⟨k, hk, -⟩
  subst hk
  intro hx
  cases hx

theorem splitOnFlush_append (xs rest : List WipeEv)
    (hx : ∀ e ∈ xs, e ≠ WipeEv.flush) :
    splitOnFlush (xs ++ WipeEv.flush :: rest) = xs :: splitOnFlush rest := by
  induction xs with
  | nil => simp [splitOnFlush]
  | cons e xs ih =>
      have he : e ≠ WipeEv.flush := hx e (List.mem_cons_self e xs)
      have ih2 := ih (fun a ha => hx a (List.mem_cons_of_mem e ha))
      cases e with
      | write src k => simp [splitOnFlush, ih2]
      | flush => exact absurd rfl he
      | unlink => simp [splitOnFlush, ih2]

theorem wipeWritesF_sum (src : WipeSrc) : ∀ (f r : Nat), r ≤ f →
    wipeLenSum (wipeWritesF src f r) = r := by
  intro f
  induction f with
  | zero =>
      intro r h
      have : r = 0 := by omega
      subst this
      simp [wipeWritesF, wipeLenSum]
  | succ f ih =>
      intro r h
      cases r with
      | zero => simp [wipeWritesF, wipeLenSum]
      | succ r =>
          have h1 : min (r + 1) wipeBufferSize ≤ r + 1 := Nat.min_le_left _ _
          have h2 : 1 ≤ min (r + 1) wipeBufferSize := by
            have : 1 ≤ wipeBufferSize := by norm_num [wipeBufferSize]
            omega
          have h3 : r + 1 - min (r + 1) wipeBufferSize ≤ f := by omega
          simp only [wipeWritesF, wipeLenSum, ih _ h3]
          omega

theorem splitFixedPasses (N : Nat) (tail : List WipeEv) : ∀ vs : List Nat,
    splitOnFlush (fixedPassesTrace N vs ++ tail) =
      (vs.map (fun v => wipeWrites (WipeSrc.fixed v) N)) ++ splitOnFlush tail := by
  intro vs
  induction vs with
  | nil => simp [fixedPassesTrace]
  | cons v vs ih =>
      have := splitOnFlush_append (wipeWrites (WipeSrc.fixed v) N)
        (fixedPassesTrace N vs ++ tail) (wipeWrites_no_flush _ _)
      simp only [fixedPassesTrace, List.append_assoc, List.cons_append, List.nil_append]
      rw [this, ih]
      simp

theorem count_unlink_wipeWrites (src : WipeSrc) (N : Nat) :
    List.count WipeEv.unlink (wipeWrites src N) = 0 := by
  rw [List.count_eq_zero]
  intro h
  exact wipeWrites_no_unlink src N _ h rfl

theorem count_unlink_fixedPasses (N : Nat) : ∀ vs : List Nat,
    List.count WipeEv.unlink (fixedPassesTrace N vs) = 0 := by
  intro vs
  induction vs with
  | nil => simp [fixedPassesTrace]
  | cons v vs ih =>
      simp [fixedPassesTrace, List.count_append, count_unlink_wipeWrites, ih]

/-- C4: securely deleting an N-byte file writes exactly seven passes, in
segments separated by flushes: the six fixed byte values 0xFF, 0x00,
0xAA, 0x55, 0xF0, 0x0F in that order, then one random pass, and the
unlink is the only event after the final flush; every pass consists of
write_all chunks of the pass's own source totalling exactly N bytes, and
the file is unlinked exactly once. -/
theorem C4_secure_erase_seven_passes (N : Nat) :
    splitOnFlush (securely_delete_file_trace N) =
      (fixedWipeValues.map (fun v => wipeWrites (WipeSrc.fixed v) N))
        ++ [wipeWrites WipeSrc.random N, [WipeEv.unlink]] ∧
    (∀ src, wipeLenSum (wipeWrites src N) = N) ∧
    (∀ src ev, ev ∈ wipeWrites src N →
      ∃ k, ev = WipeEv.write src k ∧ 1 ≤ k ∧ k ≤ wipeBufferSize) ∧
    List.count WipeEv.unlink (securely_delete_file_trace N) = 1 := by
  refine ⟨?_, fun src => wipeWritesF_sum src N N (Nat.le_refl N),
    fun src ev h => wipeWritesF_mem src N N ev h, ?_⟩
  · rw [securely_delete_file_trace, List.append_assoc, splitFixedPasses]
    congr 1
    rw [splitOnFlush_append _ _ (wipeWrites_no_flush _ _)]
    rfl
  · rw [securely_delete_file_trace]
    simp [List.count_append, count_unlink_fixedPasses, count_unlink_wipeWrites,
      List.count_cons]

theorem precondition_go_isSome (dc : Option (List String)) : ∀ (srcs : List PathSpec)
    (i : Nat), (precondition_go dc i srcs).isSome = true ↔ preViolation srcs dc := by
  intro srcs
  induction srcs with
  | nil =>
      intro i
      simp [precondition_go, preViolation]
  | cons s rest ih =>
      intro i
      have hstep : preViolation (s :: rest) dc ↔
          (s.present = false ∨
            (∃ cs cd, s.canonical = some cs ∧ dc = some cd ∧ List.isPrefixOf cs cd = true)) ∨
          preViolation rest dc := by
        simp only [preViolation, List.mem_cons]
        constructor
        · rintro ⟨t, ht | ht, hv⟩
          · subst ht
            exact Or.inl hv
          · exact Or.inr ⟨t, ht, hv⟩
        · rintro (hv | ⟨t, ht, hv⟩)
          · exact ⟨s, Or.inl rfl, hv⟩
          · exact ⟨t, Or.inr ht, hv⟩
      by_cases hp : s.present
      · rcases hs : s.canonical with _ | cs
        · simp only [precondition_go, hp, Bool.not_true, Bool.false_eq_true, if_false, hs]
          rw [ih (i + 1), hstep]
          simp [hp, hs]
        · rcases hd : dc with _ | cd
          all_goals subst hd
          · simp only [precondition_go, hp, Bool.not_true, Bool.false_eq_true, if_false, hs]
            rw [ih (i + 1), hstep]
            simp [hp, hs]
          · by_cases hpre : List.isPrefixOf cs cd = true
            · simp only [precondition_go, hp, Bool.not_true, Bool.false_eq_true, if_false,
                hs, hpre, if_true]
              refine iff_of_true (by simp) ?_
              rw [hstep]
              exact Or.inl (Or.inr ⟨cs, cd, hs, rfl, hpre⟩)
            · simp only [precondition_go, hp, Bool.not_true, Bool.false_eq_true, if_false,
                hs, hpre, if_false]
              rw [ih (i + 1), hstep]
              have hno : ¬ (s.present = false ∨
                  (∃ cs2 cd2, s.canonical = some cs2 ∧ some cd = some cd2 ∧
                    List.isPrefixOf cs2 cd2 = true)) := by
                rintro (hv | ⟨cs2, cd2, hcs2, hcd2, hpre2⟩)
                · rw [hp] at hv
                  cases hv
                · rw [hs] at hcs2
                  cases hcs2
                  cases hcd2
                  exact absurd hpre2 hpre
              constructor
              · exact Or.inr
              · rintro (hv | h)
                · exact absurd hv hno
                · exact h
      · have hp2 : s.present = false := by
          rcases Bool.eq_false_or_eq_true s.present with h | h
          · exact absurd h hp
          · exact h
        simp only [precondition_go, hp2, Bool.not_false, if_true]
        refine iff_of_true (by simp) ?_
        rw [hstep]
        exact Or.inl (Or.inl hp2)

/-- C8 counterexample: a run whose preconditions both pass can still end
with a propagated I/O error, which is neither the final Statistics nor a
precondition error: one source directory holding a.txt, a destination in
which a.txt is occupied by a directory, retries 1. -/
theorem C8_counterexample_io_error :
    (engine_run { patterns := ["*.*"], retries := 1 } false
        [⟨⟨true, some ["s"]⟩, "s", FsTree.dir ⟨0, 0⟩ (.cons "a.txt" (.file ⟨5, 2⟩) .nil)⟩]
        (some ["d"])
        (DstSlot.present (.dir ⟨0, 0⟩ (.cons "a.txt" (.dir ⟨0, 0⟩ .nil) .nil))) true).err
      = some (EngineErr.io CopyErr.createFailed) := by
  decide

/-- C8 (amended): a run returns an error of precondition kind exactly when
the precondition phase rejects it; the phase rejects exactly the runs with
a missing source, or a source whose canonical path is a prefix of the
available canonical destination; a rejected run performs no I/O — the
destination is returned untouched and the statistics are zero; and every
run ends in one of exactly three ways: the final statistics with no
error, a precondition error, or a propagated I/O error. -/
theorem C8_run_outcomes :
    (∀ (o : CopyOptions) (c : Bool) (sources : List SourceIn)
        (dc : Option (List String)) (dst : DstSlot) (dpp : Bool) (p : PreErr),
      (engine_run o c sources dc dst dpp).err = some (EngineErr.pre p) ↔
        precondition_check (sources.map (fun s => s.spec)) dc = some p) ∧
    (∀ (sources : List PathSpec) (dc : Option (List String)),
      (precondition_check sources dc).isSome = true ↔ preViolation sources dc) ∧
    (∀ (o : CopyOptions) (c : Bool) (sources : List SourceIn)
        (dc : Option (List String)) (dst : DstSlot) (dpp : Bool) (p : PreErr),
      precondition_check (sources.map (fun s => s.spec)) dc = some p →
      engine_run o c sources dc dst dpp =
        ⟨dst, Statistics.zero, some (EngineErr.pre p)⟩) ∧
    (∀ (o : CopyOptions) (c : Bool) (sources : List SourceIn)
        (dc : Option (List String)) (dst : DstSlot) (dpp : Bool),
      (engine_run o c sources dc dst dpp).err = none ∨
      (∃ p, (engine_run o c sources dc dst dpp).err = some (EngineErr.pre p)) ∨
      (∃ e, (engine_run o c sources dc dst dpp).err = some (EngineErr.io e))) := by
  have hpre : ∀ (o : CopyOptions) (c : Bool) (sources : List SourceIn)
      (dc : Option (List String)) (dst : DstSlot) (dpp : Bool) (p : PreErr),
      (engine_run o c sources dc dst dpp).err = some (EngineErr.pre p) ↔
        precondition_check (sources.map (fun s => s.spec)) dc = some p := by
    intro o c sources dc dst dpp p
    unfold engine_run
    rcases h : precondition_check (sources.map (fun s => s.spec)) dc with _ | q
    · rcases dst with b | t
      · by_cases hl : o.list_only
        · rcases (engine_sources o c dpp sources (DstSlot.absent b)).2.2 with _ | e <;>
            simp_all
        · cases b <;>
            [skip;
              rcases (engine_sources o c dpp sources
                (DstSlot.present (FsTree.dir ⟨0, 0⟩ Entries.nil))).2.2 with _ | e] <;>
            simp_all
      · rcases (engine_sources o c dpp sources (DstSlot.present t)).2.2 with _ | e <;>
          simp_all
    · simp [h]
  refine ⟨hpre, fun sources dc => precondition_go_isSome dc sources 0, ?_, ?_⟩
  · intro o c sources dc dst dpp p hp
    unfold engine_run
    rw [hp]
  · intro o c sources dc dst dpp
    rcases h : (engine_run o c sources dc dst dpp).err with _ | e
    · exact Or.inl rfl
    · rcases e with p | e
      · exact Or.inr (Or.inl ⟨p, rfl⟩)
      · exact Or.inr (Or.inr ⟨e, rfl⟩)

/-- C8 witness: at a concrete configuration — a missing source path — the
run is rejected with sourceMissing 0, the destination untouched. -/
theorem C8_run_outcomes_witness :
    engine_run { patterns := ["*.*"], retries := 1 } false
        [⟨⟨false, none⟩, "s", FsTree.file ⟨1, 1⟩⟩] none (DstSlot.absent true) true =
      ⟨DstSlot.absent true, Statistics.zero,
        some (EngineErr.pre (PreErr.sourceMissing 0))⟩ := by
  have h := C8_run_outcomes.2.2.1 { patterns := ["*.*"], retries := 1 } false
    [⟨⟨false, none⟩, "s", FsTree.file ⟨1, 1⟩⟩] none (DstSlot.absent true) true
    (PreErr.sourceMissing 0) (by decide)
  exact h

theorem FsTree.sz_pos (t : FsTree) : 1 ≤ t.sz := by
  cases t with
  | file m => simp [FsTree.sz]
  | dir m es => simp [FsTree.sz]

/-- C3 counterexample: a mirror run (patterns *.txt) over a source holding
only a.log, against a destination holding a stale a.log, completes without
error and leaves the destination name-set {a.log}, while the set of source
names matching a pattern is empty — the two sets differ, because the purge
compares destination names against all source names, not the
pattern-matching ones. -/
theorem C3_counterexample_stale_entry :
    (copy_directory mirrorTxtOptions false "s"
        (.dir ⟨0, 0⟩ (.cons "a.log" (.file ⟨5, 3⟩) .nil))
        (.present (.dir ⟨0, 0⟩ (.cons "a.log" (.file ⟨9, 4⟩) .nil))) true).err = none ∧
    dstNames (copy_directory mirrorTxtOptions false "s"
        (.dir ⟨0, 0⟩ (.cons "a.log" (.file ⟨5, 3⟩) .nil))
        (.present (.dir ⟨0, 0⟩ (.cons "a.log" (.file ⟨9, 4⟩) .nil))) true).dst
      = ["a.log"] ∧
    matchingFileNames mirrorTxtOptions (.cons "a.log" (.file ⟨5, 3⟩) .nil) = [] ∧
    (["a.log"] : List String) ≠ [] := by
  decide

/-- C3 (amended): the purge pass deletes exactly the destination entries
whose name is not among the source entry names captured at the start of
the directory's processing — the survivors are precisely the entries whose
name is in that (unfiltered) name list, and the removed counters count
exactly the deleted files and the deleted directories.  Because the
captured names are not filtered by the patterns, the destination name-set
after a mirror run need not equal the pattern-matching source name-set. -/
theorem C3_purge_deletes_exactly (o : CopyOptions) (names : List String) :
    ∀ des : Entries,
      (purge_entries o false names des).dst.toList
        = des.toList.filter (fun e => names.contains e.1) ∧
      (purge_entries o false names des).stats.files_removed
        = (des.toList.filter (fun e => !(names.contains e.1) && e.2.isFile)).length ∧
      (purge_entries o false names des).stats.dirs_removed
        = (des.toList.filter (fun e => !(names.contains e.1) && e.2.isDir)).length
  | .nil => by simp [purge_entries, Entries.toList]
  | .cons n t rest => by
      have ih := C3_purge_deletes_exactly o names rest
      by_cases hm : n ∈ names
      · simp [purge_entries, Entries.toList, hm, ih]
      · cases t with
        | file m =>
            simp [purge_entries, Entries.toList, hm, ih, FsTree.isFile, FsTree.isDir]
            omega
        | dir m es =>
            simp [purge_entries, Entries.toList, hm, ih, FsTree.isFile, FsTree.isDir]
            omega

theorem Statistics.add_zero_right (a : Statistics) : a + Statistics.zero = a := by
  cases a
  simp only [HAdd.hAdd, Add.add, Statistics.add, Statistics.zero]
  simp

theorem Statistics.zero_add_left (a : Statistics) : Statistics.zero + a = a := by
  cases a
  simp only [HAdd.hAdd, Add.add, Statistics.add, Statistics.zero]
  simp

theorem purge_entries_file_counters (o : CopyOptions) (c : Bool) (names : List String) :
    ∀ des : Entries, fileCountersZero (purge_entries o c names des).stats
  | .nil => by simp [purge_entries, fileCountersZero]
  | .cons n t rest => by
      have ih := purge_entries_file_counters o c names rest
      rcases ih with ⟨i1, i2, i3, i4⟩
      cases c with
      | true =>
          simp [purge_entries, fileCountersZero, i1, i2, i3, i4]
      | false =>
          by_cases hm : n ∈ names
          · simp [purge_entries, hm, fileCountersZero, i1, i2, i3, i4]
          · cases t <;> simp [purge_entries, hm, fileCountersZero, i1, i2, i3, i4]

theorem copy_directory_dir_stats (o : CopyOptions) (c : Bool) (name : String)
    (m : FileMeta) (es : Entries) (dst : DstSlot) (pp : Bool) :
    fileCountersZero (copy_directory o c name (FsTree.dir m es) dst pp).stats ∨
    (∃ (d1 : DstSlot) (s1 s2 : Statistics),
      (copy_directory o c name (FsTree.dir m es) dst pp).stats
        = s1 + (process_entries o c es d1).stats + s2 ∧
      fileCountersZero s1 ∧ fileCountersZero s2) := by
  cases c with
  | true =>
      left
      simp [copy_directory, fileCountersZero]
  | false =>
      have hzero : fileCountersZero Statistics.zero := by simp [fileCountersZero]
      have hone : fileCountersZero { dirs_created := 1 } := ⟨rfl, rfl, rfl, rfl⟩
      rcases dst with b | t
      · by_cases hl : o.list_only = true
        · rcases hpe : (process_entries o false es (DstSlot.absent b)).err with _ | e
          · right
            refine ⟨DstSlot.absent b, { dirs_created := 1 }, Statistics.zero, ?_, hone, hzero⟩
            simp [copy_directory, hl, hpe, Statistics.add_zero_right]
          · right
            refine ⟨DstSlot.absent b, { dirs_created := 1 }, Statistics.zero, ?_, hone, hzero⟩
            simp [copy_directory, hl, hpe, Statistics.add_zero_right]
        · cases b with
          | false =>
              left
              simp [copy_directory, hl, fileCountersZero]
          | true =>
              rcases hpe : (process_entries o false es
                  (DstSlot.present (FsTree.dir ⟨0, 0⟩ Entries.nil))).err with _ | e
              · by_cases hpm : (o.purge || o.mirror) = true
                · rcases hpd : (process_entries o false es
                      (DstSlot.present (FsTree.dir ⟨0, 0⟩ Entries.nil))).dst with b2 | t2
                  · right
                    refine ⟨DstSlot.present (FsTree.dir ⟨0, 0⟩ Entries.nil),
                      { dirs_created := 1 }, Statistics.zero, ?_, hone, hzero⟩
                    simp [copy_directory, hl, hpe, hpm, hpd, Statistics.add_zero_right]
                  · cases t2 with
                    | file f2 =>
                        right
                        refine ⟨DstSlot.present (FsTree.dir ⟨0, 0⟩ Entries.nil),
                          { dirs_created := 1 }, Statistics.zero, ?_, hone, hzero⟩
                        simp [copy_directory, hl, hpe, hpm, hpd, Statistics.add_zero_right]
                    | dir dm2 des2 =>
                        right
                        refine ⟨DstSlot.present (FsTree.dir ⟨0, 0⟩ Entries.nil),
                          { dirs_created := 1 },
                          (purge_entries o false es.names des2).stats, ?_,
                          hone, purge_entries_file_counters o false es.names des2⟩
                        simp [copy_directory, hl, hpe, hpm, hpd]
                · right
                  refine ⟨DstSlot.present (FsTree.dir ⟨0, 0⟩ Entries.nil),
                    { dirs_created := 1 }, Statistics.zero, ?_, hone, hzero⟩
                  simp [copy_directory, hl, hpe, hpm, Statistics.add_zero_right]
              · right
                refine ⟨DstSlot.present (FsTree.dir ⟨0, 0⟩ Entries.nil),
                  { dirs_created := 1 }, Statistics.zero, ?_, hone, hzero⟩
                simp [copy_directory, hl, hpe, Statistics.add_zero_right]
      · rcases hpe : (process_entries o false es (DstSlot.present t)).err with _ | e
        · by_cases hpm : (o.purge || o.mirror) = true
          · by_cases hl : o.list_only = true
            · right
              refine ⟨DstSlot.present t, Statistics.zero, Statistics.zero, ?_, hzero, hzero⟩
              simp [copy_directory, hl, hpe, Statistics.add_zero_right,
                Statistics.zero_add_left]
            · rcases hpd : (process_entries o false es (DstSlot.present t)).dst with b2 | t2
              · right
                refine ⟨DstSlot.present t, Statistics.zero, Statistics.zero, ?_, hzero, hzero⟩
                simp [copy_directory, hl, hpe, hpm, hpd, Statistics.add_zero_right,
                  Statistics.zero_add_left]
              · cases t2 with
                | file f2 =>
                    right
                    refine ⟨DstSlot.present t, Statistics.zero, Statistics.zero, ?_,
                      hzero, hzero⟩
                    simp [copy_directory, hl, hpe, hpm, hpd, Statistics.add_zero_right,
                      Statistics.zero_add_left]
                | dir dm2 des2 =>
                    right
                    refine ⟨DstSlot.present t, Statistics.zero,
                      (purge_entries o false es.names des2).stats, ?_,
                      hzero, purge_entries_file_counters o false es.names des2⟩
                    simp [copy_directory, hl, hpe, hpm, hpd, Statistics.zero_add_left]
          · right
            refine ⟨DstSlot.present t, Statistics.zero, Statistics.zero, ?_, hzero, hzero⟩
            simp [copy_directory, hpe, hpm, Statistics.add_zero_right,
              Statistics.zero_add_left]
        · right
          refine ⟨DstSlot.present t, Statistics.zero, Statistics.zero, ?_, hzero, hzero⟩
          simp [copy_directory, hpe, Statistics.add_zero_right, Statistics.zero_add_left]

theorem process_entries_no_patterns (o : CopyOptions) (hp : o.patterns = []) :
    ∀ (es : Entries) (c : Bool) (dst : DstSlot),
      fileCountersZero (process_entries o c es dst).stats
  | .nil, c, dst => by simp [process_entries, fileCountersZero]
  | .cons n t rest, c, dst => by
      cases c with
      | true =>
          have ih := process_entries_no_patterns o hp rest true dst
          rcases ih with ⟨i1, i2, i3, i4⟩
          simp [process_entries, fileCountersZero, i1, i2, i3, i4]
      | false =>
          cases t with
          | file fm =>
              have hm : matchesAny o.patterns n = false := by simp [matchesAny, hp]
              have ih := process_entries_no_patterns o hp rest false dst
              rcases ih with ⟨i1, i2, i3, i4⟩
              simp [process_entries, hm, fileCountersZero, i1, i2, i3, i4]
          | dir dm dirEs =>
              by_cases hr : o.recursive = true
              · by_cases he : (!o.include_empty && (FsTree.dir dm dirEs).isEmptyDir) = true
                · have ih := process_entries_no_patterns o hp rest false dst
                  rcases ih with ⟨i1, i2, i3, i4⟩
                  simp [process_entries, hr, he, fileCountersZero, i1, i2, i3, i4]
                · have hsub : fileCountersZero
                      (copy_directory o false n (FsTree.dir dm dirEs)
                        (dirChildSlot dst n) dst.existsB).stats := by
                    rcases copy_directory_dir_stats o false n dm dirEs
                        (dirChildSlot dst n) dst.existsB with hz | ⟨d1, s1, s2, heq, h1, h2⟩
                    · exact hz
                    · have ihd := process_entries_no_patterns o hp dirEs false d1
                      rcases ihd with ⟨j1, j2, j3, j4⟩
                      rcases h1 with ⟨a1, a2, a3, a4⟩
                      rcases h2 with ⟨b1, b2, b3, b4⟩
                      rw [heq]
                      refine ⟨?_, ?_, ?_, ?_⟩ <;> simp [a1, a2, a3, a4, b1, b2, b3, b4,
                        j1, j2, j3, j4]
                  rcases hsub with ⟨u1, u2, u3, u4⟩
                  rcases herr : (copy_directory o false n (FsTree.dir dm dirEs)
                      (dirChildSlot dst n) dst.existsB).err with _ | e
                  · have ih := process_entries_no_patterns o hp rest false
                      (setSlot dst n (copy_directory o false n (FsTree.dir dm dirEs)
                        (dirChildSlot dst n) dst.existsB).dst)
                    rcases ih with ⟨i1, i2, i3, i4⟩
                    simp [process_entries, hr, he, herr, fileCountersZero,
                      u1, u2, u3, u4, i1, i2, i3, i4]
                  · simp [process_entries, hr, he, herr, fileCountersZero, u1, u2, u3, u4]
              · have ih := process_entries_no_patterns o hp rest false dst
                rcases ih with ⟨i1, i2, i3, i4⟩
                simp [process_entries, hr, fileCountersZero, i1, i2, i3, i4]

theorem copy_directory_no_patterns (o : CopyOptions) (hp : o.patterns = []) (c : Bool)
    (name : String) (m : FileMeta) (es : Entries) (dst : DstSlot) (pp : Bool) :
    fileCountersZero (copy_directory o c name (FsTree.dir m es) dst pp).stats := by
  rcases copy_directory_dir_stats o c name m es dst pp with hz | ⟨d1, s1, s2, heq, h1, h2⟩
  · exact hz
  · obtain ⟨j1, j2, j3, j4⟩ := process_entries_no_patterns o hp es c d1
    obtain ⟨a1, a2, a3, a4⟩ := h1
    obtain ⟨b1, b2, b3, b4⟩ := h2
    rw [heq]
    refine ⟨?_, ?_, ?_, ?_⟩ <;>
      simp [a1, a2, a3, a4, b1, b2, b3, b4, j1, j2, j3, j4]

/-- C10 counterexample: a run whose source is a single file, with the
pattern list empty, still copies the file and counts it — the single-file
branch of copy_directory never consults the patterns. -/
theorem C10_counterexample_file_source :
    ({ patterns := [], retries := 1 } : CopyOptions).patterns = [] ∧
    (copy_directory { patterns := [], retries := 1 } false "data.bin"
        (FsTree.file ⟨1, 5⟩) (DstSlot.absent true) true).stats.files_copied = 1 := by
  decide

/-- C10 (amended): with an empty configured pattern list, no name matches
(matchesAny over an empty list is false), so a run over a directory source
copies, skips, fails and transfers nothing — all four file counters stay
zero at every level — while the match-all default "*.*" is introduced only
by the CLI argument parser when fewer than three positional arguments are
given; a single-file source, however, bypasses the pattern filter and is
copied regardless. -/
theorem C10_empty_pattern_list :
    (∀ name : String, matchesAny [] name = false) ∧
    (∀ positional : List String, positional.length ≤ 2 →
      cli_patterns positional = ["*.*"]) ∧
    (∀ (o : CopyOptions) (c : Bool) (name : String) (m : FileMeta) (es : Entries)
        (dst : DstSlot) (pp : Bool), o.patterns = [] →
      fileCountersZero (copy_directory o c name (FsTree.dir m es) dst pp).stats) := by
  refine ⟨fun name => rfl, ?_, ?_⟩
  · intro positional hlen
    simp only [cli_patterns]
    rw [if_neg (by omega)]
  · intro o c name m es dst pp hp
    exact copy_directory_no_patterns o hp c name m es dst pp

/-- C10 witness: the amended theorem at concrete inputs — the name x
matches nothing, the two-positional CLI run gets the default pattern, and
an empty-pattern run over a one-file directory touches no file counter. -/
theorem C10_empty_pattern_list_witness :
    matchesAny [] "x" = false ∧
    cli_patterns ["src", "dst"] = ["*.*"] ∧
    fileCountersZero (copy_directory { patterns := [], retries := 1 } false "s"
      (FsTree.dir ⟨0, 0⟩ (Entries.cons "a.txt" (FsTree.file ⟨5, 2⟩) Entries.nil))
      (DstSlot.absent true) true).stats :=
  ⟨C10_empty_pattern_list.1 "x",
   C10_empty_pattern_list.2.1 ["src", "dst"] (by decide),
   C10_empty_pattern_list.2.2 { patterns := [], retries := 1 } false "s" ⟨0, 0⟩
     (Entries.cons "a.txt" (FsTree.file ⟨5, 2⟩) Entries.nil) (DstSlot.absent true)
     true rfl⟩

theorem Entries.setEntry_lookup_self : ∀ (es : Entries) (n : String) (t : FsTree),
    es.lookup n = some t → es.setEntry n t = es
  | .nil, n, t => by simp [Entries.lookup]
  | .cons n0 t0 rest, n, t => by
      intro h
      by_cases hn : n0 = n
      · subst hn
        simp [Entries.lookup] at h
        simp [Entries.setEntry, h]
      · simp [Entries.lookup, hn] at h
        simp [Entries.setEntry, hn, Entries.setEntry_lookup_self rest n t h]

theorem setSlot_fileSlot_self (dst : DstSlot) (n : String) :
    setSlot dst n (fileSlotOf dst n) = dst := by
  rcases dst with b | t
  · rfl
  · cases t with
    | file f => rfl
    | dir dm des =>
        rcases hl : des.lookup n with _ | t0
        · simp [fileSlotOf, hl, setSlot]
        · simp [fileSlotOf, hl, setSlot, Entries.setEntry_lookup_self des n t0 hl]

theorem setSlot_dirChild_self (dst : DstSlot) (n : String) :
    setSlot dst n (dirChildSlot dst n) = dst := by
  rcases dst with b | t
  · rfl
  · cases t with
    | file f => rfl
    | dir dm des =>
        rcases hl : des.lookup n with _ | t0
        · simp [dirChildSlot, hl, setSlot]
        · simp [dirChildSlot, hl, setSlot, Entries.setEntry_lookup_self des n t0 hl]

theorem copy_file_list_only (o : CopyOptions) (hl : o.list_only = true) (name : String)
    (m : FileMeta) (slot : DstSlot) :
    (copy_file o false name m slot).srcRemoved = false ∧
    (copy_file o false name m slot).dst = slot ∧
    (copy_file o false name m slot).err = none := by
  by_cases hsc : should_copy_file m slot.meta o.force_overwrite = true
  · simp [copy_file, hsc, hl]
  · have hsc2 : should_copy_file m slot.meta o.force_overwrite = false := by
      rcases Bool.eq_false_or_eq_true (should_copy_file m slot.meta o.force_overwrite)
        with h | h
      · exact absurd h hsc
      · exact h
    simp [copy_file, hsc2]

theorem process_entries_list_only (o : CopyOptions) (hl : o.list_only = true) :
    ∀ (es : Entries) (dst : DstSlot),
      (process_entries o false es dst).src = es ∧
      (process_entries o false es dst).dst = dst ∧
      (process_entries o false es dst).err = none
  | .nil, dst => by simp [process_entries]
  | .cons n t rest, dst => by
      cases t with
      | file fm =>
          by_cases hm : matchesAny o.patterns n = true
          · obtain ⟨hc1, hc2, hc3⟩ := copy_file_list_only o hl n fm (fileSlotOf dst n)
            obtain ⟨i1, i2, i3⟩ := process_entries_list_only o hl rest dst
            simp [process_entries, hm, hc1, hc2, hc3, setSlot_fileSlot_self, i1, i2, i3]
          · have hm2 : matchesAny o.patterns n = false := by
              rcases Bool.eq_false_or_eq_true (matchesAny o.patterns n) with h | h
              · exact absurd h hm
              · exact h
            obtain ⟨i1, i2, i3⟩ := process_entries_list_only o hl rest dst
            simp [process_entries, hm2, i1, i2, i3]
      | dir dm dirEs =>
          by_cases hr : o.recursive = true
          · by_cases he : (!o.include_empty && (FsTree.dir dm dirEs).isEmptyDir) = true
            · obtain ⟨i1, i2, i3⟩ := process_entries_list_only o hl rest dst
              simp [process_entries, hr, he, i1, i2, i3]
            · obtain ⟨j1, j2, j3⟩ := process_entries_list_only o hl dirEs (dirChildSlot dst n)
              have hchild :
                  (copy_directory o false n (FsTree.dir dm dirEs) (dirChildSlot dst n)
                    dst.existsB).src = FsTree.dir dm dirEs ∧
                  (copy_directory o false n (FsTree.dir dm dirEs) (dirChildSlot dst n)
                    dst.existsB).dst = dirChildSlot dst n ∧
                  (copy_directory o false n (FsTree.dir dm dirEs) (dirChildSlot dst n)
                    dst.existsB).err = none := by
                rcases hds : dirChildSlot dst n with b | t2
                · rw [hds] at j1 j2 j3
                  simp [copy_directory, hl, j1, j2, j3]
                · rw [hds] at j1 j2 j3
                  simp [copy_directory, hl, j1, j2, j3]
              obtain ⟨k1, k2, k3⟩ := hchild
              obtain ⟨i1, i2, i3⟩ := process_entries_list_only o hl rest dst
              simp [process_entries, hr, he, k1, k2, k3, setSlot_dirChild_self, hl,
                i1, i2, i3]
          · have hr2 : o.recursive = false := by
              rcases Bool.eq_false_or_eq_true o.recursive with h | h
              · exact absurd h hr
              · exact h
            obtain ⟨i1, i2, i3⟩ := process_entries_list_only o hl rest dst
            simp [process_entries, hr2, i1, i2, i3]

theorem copy_directory_list_only_dir (o : CopyOptions) (hl : o.list_only = true)
    (name : String) (m : FileMeta) (es : Entries) (dst : DstSlot) (pp : Bool) :
    (copy_directory o false name (FsTree.dir m es) dst pp).src = FsTree.dir m es ∧
    (copy_directory o false name (FsTree.dir m es) dst pp).srcRemoved = false ∧
    (copy_directory o false name (FsTree.dir m es) dst pp).dst = dst ∧
    (copy_directory o false name (FsTree.dir m es) dst pp).mkdirp = false ∧
    (copy_directory o false name (FsTree.dir m es) dst pp).err = none := by
  obtain ⟨j1, j2, j3⟩ := process_entries_list_only o hl es dst
  rcases dst with b | t
  · simp [copy_directory, hl, j1, j2, j3]
  · simp [copy_directory, hl, j1, j2, j3]

/-- C6 counterexample: under list-only mode, a run whose source is a single
file and whose destination path has no existing parent still runs
fs::create_dir_all on that parent — the filesystem is modified. -/
theorem C6_counterexample_list_only_mkdir :
    ({ patterns := ["*.*"], list_only := true, retries := 1 } : CopyOptions).list_only
      = true ∧
    (copy_directory { patterns := ["*.*"], list_only := true, retries := 1 } false
        "f.txt" (FsTree.file ⟨3, 7⟩) (DstSlot.absent true) false).mkdirp = true := by
  decide

/-- C6 (amended): under list-only mode a run over a directory source never
modifies the filesystem — the source and destination trees come back
unchanged, nothing is created, and no error is surfaced; each would-be
copy only logs the intended action and still increments the copied-files
and copied-bytes counters; the one exception is the single-file-source
branch, which creates the missing parent directories of the destination
(without logging) even in list-only mode. -/
theorem C6_list_only_touches_nothing :
    (∀ (o : CopyOptions) (name : String) (m : FileMeta) (es : Entries) (dst : DstSlot)
        (pp : Bool), o.list_only = true →
      (copy_directory o false name (FsTree.dir m es) dst pp).src = FsTree.dir m es ∧
      (copy_directory o false name (FsTree.dir m es) dst pp).srcRemoved = false ∧
      (copy_directory o false name (FsTree.dir m es) dst pp).dst = dst ∧
      (copy_directory o false name (FsTree.dir m es) dst pp).mkdirp = false ∧
      (copy_directory o false name (FsTree.dir m es) dst pp).err = none) ∧
    (∀ (o : CopyOptions) (name : String) (m : FileMeta) (slot : DstSlot),
      o.list_only = true → should_copy_file m slot.meta o.force_overwrite = true →
      copy_file o false name m slot =
        { srcRemoved := false, dst := slot,
          stats := { files_copied := 1, bytes_copied := m.size },
          logs := [LogEv.wouldCopyFile name], err := none }) ∧
    (∀ (o : CopyOptions) (name : String) (m : FileMeta) (creatable : Bool),
      o.list_only = true →
      (copy_directory o false name (FsTree.file m) (DstSlot.absent creatable)
        false).mkdirp = creatable) := by
  refine ⟨?_, ?_, ?_⟩
  · intro o name m es dst pp hl
    exact copy_directory_list_only_dir o hl name m es dst pp
  · intro o name m slot hl hsc
    simp [copy_file, hsc, hl]
  · intro o name m creatable hl
    cases creatable with
    | false => simp [copy_directory]
    | true => simp [copy_directory]

/-- C6 witness: the amended theorem at concrete inputs — a list-only run
over a one-file directory returns everything unchanged; a would-be copy
of a 7-byte file counts one file and 7 bytes; and a single-file source
with a realizable absent destination and a missing parent runs the
directory creation. -/
theorem C6_list_only_touches_nothing_witness :
    ((copy_directory { patterns := ["*.*"], list_only := true, retries := 1 } false "s"
        (FsTree.dir ⟨0, 0⟩ (Entries.cons "a.txt" (FsTree.file ⟨5, 2⟩) Entries.nil))
        (DstSlot.absent true) true).src
      = FsTree.dir ⟨0, 0⟩ (Entries.cons "a.txt" (FsTree.file ⟨5, 2⟩) Entries.nil) ∧
     (copy_directory { patterns := ["*.*"], list_only := true, retries := 1 } false "s"
        (FsTree.dir ⟨0, 0⟩ (Entries.cons "a.txt" (FsTree.file ⟨5, 2⟩) Entries.nil))
        (DstSlot.absent true) true).srcRemoved = false ∧
     (copy_directory { patterns := ["*.*"], list_only := true, retries := 1 } false "s"
        (FsTree.dir ⟨0, 0⟩ (Entries.cons "a.txt" (FsTree.file ⟨5, 2⟩) Entries.nil))
        (DstSlot.absent true) true).dst = DstSlot.absent true ∧
     (copy_directory { patterns := ["*.*"], list_only := true, retries := 1 } false "s"
        (FsTree.dir ⟨0, 0⟩ (Entries.cons "a.txt" (FsTree.file ⟨5, 2⟩) Entries.nil))
        (DstSlot.absent true) true).mkdirp = false ∧
     (copy_directory { patterns := ["*.*"], list_only := true, retries := 1 } false "s"
        (FsTree.dir ⟨0, 0⟩ (Entries.cons "a.txt" (FsTree.file ⟨5, 2⟩) Entries.nil))
        (DstSlot.absent true) true).err = none) ∧
    copy_file { patterns := ["*.*"], list_only := true, retries := 1 } false "b.txt"
        ⟨9, 7⟩ (DstSlot.absent true) =
      { srcRemoved := false, dst := DstSlot.absent true,
        stats := { files_copied := 1, bytes_copied := 7 },
        logs := [LogEv.wouldCopyFile "b.txt"], err := none } ∧
    (copy_directory { patterns := ["*.*"], list_only := true, retries := 1 } false
        "f.txt" (FsTree.file ⟨3, 7⟩) (DstSlot.absent true) false).mkdirp = true :=
  ⟨C6_list_only_touches_nothing.1 { patterns := ["*.*"], list_only := true, retries := 1 }
      "s" ⟨0, 0⟩ (Entries.cons "a.txt" (FsTree.file ⟨5, 2⟩) Entries.nil)
      (DstSlot.absent true) true rfl,
   C6_list_only_touches_nothing.2.1 { patterns := ["*.*"], list_only := true, retries := 1 }
      "b.txt" ⟨9, 7⟩ (DstSlot.absent true) rfl (by decide),
   C6_list_only_touches_nothing.2.2 { patterns := ["*.*"], list_only := true, retries := 1 }
      "f.txt" ⟨3, 7⟩ true rfl⟩

theorem Entries.lookup_setEntry_ne : ∀ (es : Entries) (n k : String) (t : FsTree),
    k ≠ n → (es.setEntry n t).lookup k = es.lookup k
  | .nil, n, k, t => by
      intro h
      simp [Entries.setEntry, Entries.lookup, if_neg (Ne.symm h)]
  | .cons n0 t0 rest, n, k, t => by
      intro h
      by_cases hn : n0 = n
      · have hk : ¬ n0 = k := fun hx => h (hx.symm.trans hn)
        simp [Entries.setEntry, hn, Entries.lookup, hk, Ne.symm h]
      · simp only [Entries.setEntry, hn, if_false]
        by_cases hk : n0 = k
        · simp [Entries.lookup, hk]
        · simp [Entries.lookup, hk, Entries.lookup_setEntry_ne rest n k t h]

theorem Entries.lookup_setEntry_self : ∀ (es : Entries) (n : String) (t : FsTree),
    (es.setEntry n t).lookup n = some t
  | .nil, n, t => by simp [Entries.setEntry, Entries.lookup]
  | .cons n0 t0 rest, n, t => by
      by_cases hn : n0 = n
      · simp [Entries.setEntry, hn, Entries.lookup]
      · simp [Entries.setEntry, hn, Entries.lookup, Entries.lookup_setEntry_self rest n t]

theorem fileSlotOf_setSlot_ne (d : DstSlot) (n k : String) (X : DstSlot) (h : k ≠ n) :
    fileSlotOf (setSlot d n X) k = fileSlotOf d k := by
  rcases d with b | t
  · rcases X with b2 | t2 <;> rfl
  · cases t with
    | file f => rcases X with b2 | t2 <;> rfl
    | dir dm des =>
        rcases X with b2 | t2
        · rfl
        · simp [setSlot, fileSlotOf, Entries.lookup_setEntry_ne des n k t2 h]

theorem dirChildSlot_setSlot_ne (d : DstSlot) (n k : String) (X : DstSlot) (h : k ≠ n) :
    dirChildSlot (setSlot d n X) k = dirChildSlot d k := by
  rcases d with b | t
  · rcases X with b2 | t2 <;> rfl
  · cases t with
    | file f => rcases X with b2 | t2 <;> rfl
    | dir dm des =>
        rcases X with b2 | t2
        · rfl
        · simp [setSlot, dirChildSlot, Entries.lookup_setEntry_ne des n k t2 h]

theorem fileSlotOf_setSlot_self_present (dm : FileMeta) (des : Entries) (n : String)
    (X : FsTree) :
    fileSlotOf (setSlot (DstSlot.present (FsTree.dir dm des)) n (DstSlot.present X)) n
      = DstSlot.present X := by
  simp [setSlot, fileSlotOf, Entries.lookup_setEntry_self]

theorem dirChildSlot_setSlot_self_present (dm : FileMeta) (des : Entries) (n : String)
    (X : FsTree) :
    dirChildSlot (setSlot (DstSlot.present (FsTree.dir dm des)) n (DstSlot.present X)) n
      = DstSlot.present X := by
  simp [dirChildSlot, setSlot, Entries.lookup_setEntry_self]

theorem shapeLike_refl (d : DstSlot) : shapeLike d d := by
  rcases d with b | t
  · rfl
  · cases t <;> rfl

theorem shapeLike_trans {a b c : DstSlot} (h1 : shapeLike a b) (h2 : shapeLike b c) :
    shapeLike a c := by
  rcases a with ba | ta <;> rcases b with bb | tb <;> rcases c with bc | tc
  all_goals try cases ta
  all_goals try cases tb
  all_goals try cases tc
  all_goals simp_all [shapeLike]

theorem setSlot_shapeLike (d : DstSlot) (n : String) (X : DstSlot) :
    shapeLike d (setSlot d n X) := by
  rcases d with b | t
  · rcases X with b2 | t2 <;> rfl
  · cases t with
    | file f => rcases X with b2 | t2 <;> rfl
    | dir dm des => rcases X with b2 | t2 <;> rfl

theorem process_entries_shapeLike (o : CopyOptions) (c : Bool) :
    ∀ (es : Entries) (dst : DstSlot), shapeLike dst (process_entries o c es dst).dst
  | .nil, dst => by
      simp [process_entries]
      exact shapeLike_refl dst
  | .cons n t rest, dst => by
      cases c with
      | true =>
          have ih := process_entries_shapeLike o true rest dst
          simp [process_entries]
          exact ih
      | false =>
          cases t with
          | file fm =>
              by_cases hm : matchesAny o.patterns n = true
              · rcases herr : (copy_file o false n fm (fileSlotOf dst n)).err with _ | e
                · have ih := process_entries_shapeLike o false rest
                    (setSlot dst n (copy_file o false n fm (fileSlotOf dst n)).dst)
                  simp [process_entries, hm, herr]
                  exact shapeLike_trans (setSlot_shapeLike dst n _) ih
                · simp [process_entries, hm, herr]
                  exact setSlot_shapeLike dst n _
              · have hm2 : matchesAny o.patterns n = false := by
                  rcases Bool.eq_false_or_eq_true (matchesAny o.patterns n) with h | h
                  · exact absurd h hm
                  · exact h
                have ih := process_entries_shapeLike o false rest dst
                simp [process_entries, hm2]
                exact ih
          | dir dm dirEs =>
              by_cases hr : o.recursive = true
              · by_cases he : (!o.include_empty && (FsTree.dir dm dirEs).isEmptyDir) = true
                · have ih := process_entries_shapeLike o false rest dst
                  simp [process_entries, hr, he]
                  exact ih
                · rcases herr : (copy_directory o false n (FsTree.dir dm dirEs)
                      (dirChildSlot dst n) dst.existsB).err with _ | e
                  · have ih := process_entries_shapeLike o false rest
                      (setSlot dst n (copy_directory o false n (FsTree.dir dm dirEs)
                        (dirChildSlot dst n) dst.existsB).dst)
                    simp [process_entries, hr, he, herr]
                    exact shapeLike_trans (setSlot_shapeLike dst n _) ih
                  · simp [process_entries, hr, he, herr]
                    exact setSlot_shapeLike dst n _
              · have hr2 : o.recursive = false := by
                  rcases Bool.eq_false_or_eq_true o.recursive with h | h
                  · exact absurd h hr
                  · exact h
                have ih := process_entries_shapeLike o false rest dst
                simp [process_entries, hr2]
                exact ih

theorem process_entries_frame (o : CopyOptions) (c : Bool) :
    ∀ (es : Entries) (dst : DstSlot) (k : String), ¬ k ∈ es.names →
      fileSlotOf (process_entries o c es dst).dst k = fileSlotOf dst k ∧
      dirChildSlot (process_entries o c es dst).dst k = dirChildSlot dst k
  | .nil, dst, k => by
      intro _
      simp [process_entries]
  | .cons n t rest, dst, k => by
      intro hk
      have hkn : k ≠ n := by
        simp [Entries.names] at hk
        exact hk.1
      have hkr : ¬ k ∈ rest.names := by
        simp [Entries.names] at hk
        exact hk.2
      cases c with
      | true =>
          have ih := process_entries_frame o true rest dst k hkr
          simp [process_entries, ih]
      | false =>
          cases t with
          | file fm =>
              by_cases hm : matchesAny o.patterns n = true
              · rcases herr : (copy_file o false n fm (fileSlotOf dst n)).err with _ | e
                · have ih := process_entries_frame o false rest
                    (setSlot dst n (copy_file o false n fm (fileSlotOf dst n)).dst) k hkr
                  simp [process_entries, hm, herr, ih,
                    fileSlotOf_setSlot_ne dst n k _ hkn, dirChildSlot_setSlot_ne dst n k _ hkn]
                · simp [process_entries, hm, herr,
                    fileSlotOf_setSlot_ne dst n k _ hkn, dirChildSlot_setSlot_ne dst n k _ hkn]
              · have hm2 : matchesAny o.patterns n = false := by
                  rcases Bool.eq_false_or_eq_true (matchesAny o.patterns n) with h | h
                  · exact absurd h hm
                  · exact h
                have ih := process_entries_frame o false rest dst k hkr
                simp [process_entries, hm2, ih]
          | dir dm dirEs =>
              by_cases hr : o.recursive = true
              · by_cases he : (!o.include_empty && (FsTree.dir dm dirEs).isEmptyDir) = true
                · have ih := process_entries_frame o false rest dst k hkr
                  simp [process_entries, hr, he, ih]
                · rcases herr : (copy_directory o false n (FsTree.dir dm dirEs)
                      (dirChildSlot dst n) dst.existsB).err with _ | e
                  · have ih := process_entries_frame o false rest
                      (setSlot dst n (copy_directory o false n (FsTree.dir dm dirEs)
                        (dirChildSlot dst n) dst.existsB).dst) k hkr
                    simp [process_entries, hr, he, herr, ih,
                      fileSlotOf_setSlot_ne dst n k _ hkn,
                      dirChildSlot_setSlot_ne dst n k _ hkn]
                  · simp [process_entries, hr, he, herr,
                      fileSlotOf_setSlot_ne dst n k _ hkn,
                      dirChildSlot_setSlot_ne dst n k _ hkn]
              · have hr2 : o.recursive = false := by
                  rcases Bool.eq_false_or_eq_true o.recursive with h | h
                  · exact absurd h hr
                  · exact h
                have ih := process_entries_frame o false rest dst k hkr
                simp [process_entries, hr2, ih]

theorem process_entries_src_names (o : CopyOptions) (c : Bool) :
    ∀ (es : Entries) (dst : DstSlot),
      List.Sublist (process_entries o c es dst).src.names es.names
  | .nil, dst => by simp [process_entries, Entries.names]
  | .cons n t rest, dst => by
      cases c with
      | true =>
          have ih := process_entries_src_names o true rest dst
          simp [process_entries, Entries.names]
          exact ih
      | false =>
          cases t with
          | file fm =>
              by_cases hm : matchesAny o.patterns n = true
              · rcases herr : (copy_file o false n fm (fileSlotOf dst n)).err with _ | e
                · have ih := process_entries_src_names o false rest
                    (setSlot dst n (copy_file o false n fm (fileSlotOf dst n)).dst)
                  by_cases hmv : (copy_file o false n fm (fileSlotOf dst n)).srcRemoved = true
                  · simp [process_entries, hm, herr, hmv, Entries.names]
                    exact List.Sublist.cons n ih
                  · have hmv2 : (copy_file o false n fm (fileSlotOf dst n)).srcRemoved
                        = false := by
                      rcases Bool.eq_false_or_eq_true
                        ((copy_file o false n fm (fileSlotOf dst n)).srcRemoved) with h | h
                      · exact absurd h hmv
                      · exact h
                    simp [process_entries, hm, herr, hmv2, Entries.names]
                    exact ih
                · simp [process_entries, hm, herr, Entries.names]
              · have hm2 : matchesAny o.patterns n = false := by
                  rcases Bool.eq_false_or_eq_true (matchesAny o.patterns n) with h | h
                  · exact absurd h hm
                  · exact h
                have ih := process_entries_src_names o false rest dst
                simp [process_entries, hm2, Entries.names]
                exact ih
          | dir dm dirEs =>
              by_cases hr : o.recursive = true
              · by_cases he : (!o.include_empty && (FsTree.dir dm dirEs).isEmptyDir) = true
                · have ih := process_entries_src_names o false rest dst
                  simp [process_entries, hr, he, Entries.names]
                  exact ih
                · rcases herr : (copy_directory o false n (FsTree.dir dm dirEs)
                      (dirChildSlot dst n) dst.existsB).err with _ | e
                  · have ih := process_entries_src_names o false rest
                      (setSlot dst n (copy_directory o false n (FsTree.dir dm dirEs)
                        (dirChildSlot dst n) dst.existsB).dst)
                    by_cases hdrop : (o.move_dirs && !o.list_only &&
                        (copy_directory o false n (FsTree.dir dm dirEs)
                          (dirChildSlot dst n) dst.existsB).src.isEmptyDir) = true
                    · simp [process_entries, hr, he, herr, hdrop, Entries.names]
                      exact List.Sublist.cons n ih
                    · have hdrop2 : (o.move_dirs && !o.list_only &&
                          (copy_directory o false n (FsTree.dir dm dirEs)
                            (dirChildSlot dst n) dst.existsB).src.isEmptyDir) = false := by
                        rcases Bool.eq_false_or_eq_true (o.move_dirs && !o.list_only &&
                          (copy_directory o false n (FsTree.dir dm dirEs)
                            (dirChildSlot dst n) dst.existsB).src.isEmptyDir) with h | h
                        · exact absurd h hdrop
                        · exact h
                      simp [process_entries, hr, he, herr, hdrop2, Entries.names]
                      exact ih
                  · simp [process_entries, hr, he, herr, Entries.names]
              · have hr2 : o.recursive = false := by
                  rcases Bool.eq_false_or_eq_true o.recursive with h | h
                  · exact absurd h hr
                  · exact h
                have ih := process_entries_src_names o false rest dst
                simp [process_entries, hr2, Entries.names]
                exact ih

theorem should_copy_file_self (m : FileMeta) :
    should_copy_file m (some ⟨m.mtime, m.size⟩) false = false := by
  simp [should_copy_file]

theorem copy_file_skip (o : CopyOptions) (n : String) (m : FileMeta) (slot : DstSlot)
    (hf : o.force_overwrite = false)
    (hsc : should_copy_file m slot.meta o.force_overwrite = false) :
    copy_file o false n m slot =
      { srcRemoved := false, dst := slot, stats := { files_skipped := 1 },
        logs := [], err := none } := by
  simp [copy_file, hsc]

theorem copy_file_copy_ok (o : CopyOptions) (n : String) (m : FileMeta) (slot : DstSlot)
    (sz : Nat) (hl : o.list_only = false)
    (hsc : should_copy_file m slot.meta o.force_overwrite = true)
    (hcc : copy_file_content o slot m = Sum.inr sz) :
    copy_file o false n m slot =
      { srcRemoved := o.move_files,
        dst := DstSlot.present (FsTree.file ⟨m.mtime, sz⟩),
        stats := { files_copied := 1, bytes_copied := m.size },
        logs := (if o.log_file_names then [LogEv.copyingFile n] else []) ++
          (if o.move_files && o.shred_files then [LogEv.securelyDeletedFile n] else []),
        err := none } := by
  simp [copy_file, hsc, hl, hcc]

theorem copy_file_err_of_content_err (o : CopyOptions) (n : String) (m : FileMeta)
    (slot : DstSlot) (e : CopyErr) (hl : o.list_only = false)
    (hsc : should_copy_file m slot.meta o.force_overwrite = true)
    (hcc : copy_file_content o slot m = Sum.inl e) :
    (copy_file o false n m slot).err = some e := by
  simp [copy_file, hsc, hl, hcc, copy_file_retry]
  exact (copyFileGo_fail_fields e o.retries o.wait_time o.retries 0 0).2

theorem copy_file_content_ok_shape (o : CopyOptions) (slot : DstSlot) (m : FileMeta)
    (sz : Nat) (hcc : copy_file_content o slot m = Sum.inr sz) :
    (∃ f, slot = DstSlot.present (FsTree.file f)) ∨ slot = DstSlot.absent true := by
  rcases slot with b | t
  · cases b with
    | false => simp [copy_file_content] at hcc
    | true => exact Or.inr rfl
  · cases t with
    | file f => exact Or.inl ⟨f, rfl⟩
    | dir dm des => simp [copy_file_content] at hcc

theorem copy_file_content_ok_size (o : CopyOptions) (slot : DstSlot) (m : FileMeta)
    (sz : Nat) (hef : o.empty_files = false)
    (hcc : copy_file_content o slot m = Sum.inr sz) : sz = m.size := by
  rcases slot with b | t
  · cases b with
    | false => simp [copy_file_content] at hcc
    | true =>
        simp [copy_file_content, hef] at hcc
        exact hcc.symm
  · cases t with
    | file f =>
        simp [copy_file_content, hef] at hcc
        exact hcc.symm
    | dir dm des => simp [copy_file_content] at hcc

theorem fileSlotOf_file_or_creatable (dst : DstSlot) (n : String)
    (h : (∃ f, fileSlotOf dst n = DstSlot.present (FsTree.file f)) ∨
      fileSlotOf dst n = DstSlot.absent true) :
    ∃ dm des, dst = DstSlot.present (FsTree.dir dm des) := by
  rcases dst with b | t
  · rcases h with ⟨f, hf⟩ | hf <;> simp [fileSlotOf] at hf
  · cases t with
    | file f2 => rcases h with ⟨f, hf⟩ | hf <;> simp [fileSlotOf] at hf
    | dir dm des => exact ⟨dm, des, rfl⟩

theorem dirChildSlot_live_not_file (t0 : FsTree) (n : String)
    (h : dirChildSlot (DstSlot.present t0) n ≠ DstSlot.absent false) :
    ∃ dm des, t0 = FsTree.dir dm des := by
  cases t0 with
  | file f => exact absurd rfl h
  | dir dm des => exact ⟨dm, des, rfl⟩

theorem shapeLike_present {t : FsTree} {d : DstSlot} (h : shapeLike (DstSlot.present t) d) :
    ∃ x, d = DstSlot.present x := by
  rcases d with b | x
  · cases t <;> simp [shapeLike] at h
  · exact ⟨x, rfl⟩

theorem setSlot_present (t0 : FsTree) (n : String) (X : DstSlot) :
    ∃ x, setSlot (DstSlot.present t0) n X = DstSlot.present x := by
  cases t0 with
  | file f => rcases X with b | t2 <;> exact ⟨_, rfl⟩
  | dir dm des => rcases X with b | t2 <;> exact ⟨_, rfl⟩

theorem purge_entries_lookup (o : CopyOptions) (c : Bool) (names : List String) :
    ∀ (des : Entries) (k : String), names.contains k = true →
      (purge_entries o c names des).dst.lookup k = des.lookup k
  | .nil, k => by
      intro _
      rfl
  | .cons n t rest, k => by
      intro hk
      have ih := purge_entries_lookup o c names rest k hk
      cases c with
      | true =>
          by_cases hnk : n = k
          · simp [purge_entries, Entries.lookup, hnk]
          · simp [purge_entries, Entries.lookup, hnk, ih]
      | false =>
          by_cases hm : n ∈ names
          · by_cases hnk : n = k
            · subst hnk
              simp [purge_entries, hm, Entries.lookup]
            · simp [purge_entries, hm, Entries.lookup, hnk, ih]
          · have hnk : ¬ n = k := by
              intro hx
              subst hx
              simp at hk
              exact hm hk
            cases t with
            | file f => simp [purge_entries, hm, Entries.lookup, hnk, ih]
            | dir dm des2 => simp [purge_entries, hm, Entries.lookup, hnk, ih]

theorem Entries.wfB_cons_iff (n : String) (t : FsTree) (rest : Entries) :
    (Entries.cons n t rest).wfB = true ↔
      (¬ n ∈ rest.names ∧ t.wfB = true ∧ rest.wfB = true) := by
  simp [Entries.wfB, Bool.and_eq_true, and_assoc]

theorem FsTree.wfB_dir (m : FileMeta) (es : Entries) :
    (FsTree.dir m es).wfB = es.wfB := rfl

/-- The destination views d2 and dref offer the same child slots at every
name in ks (all a rerun of the walk over names drawn from ks can see). -/
@[reducible] def slotsAgree (d2 dref : DstSlot) (ks : List String) : Prop :=
  ∀ k, k ∈ ks → fileSlotOf d2 k = fileSlotOf dref k ∧
    dirChildSlot d2 k = dirChildSlot dref k
/-- A walk outcome that propagated no error, copied no file, failed no
file and moved no bytes. -/
@[reducible] def ProcOut.clean (p : ProcOut) : Prop :=
  p.err = none ∧ p.stats.files_copied = 0 ∧ p.stats.files_failed = 0 ∧
    p.stats.bytes_copied = 0
/-- A copy_directory outcome that propagated no error, copied no file,
failed no file and moved no bytes. -/
@[reducible] def DirOut.clean (r : DirOut) : Prop :=
  r.err = none ∧ r.stats.files_copied = 0 ∧ r.stats.files_failed = 0 ∧
    r.stats.bytes_copied = 0
theorem copy_directory_second (o : CopyOptions) (hl : o.list_only = false)
    (n : String) (dm : FileMeta) (es1 : Entries) (X : FsTree) (pp2 : Bool)
    (h2 : ProcOut.clean (process_entries o false es1 (DstSlot.present X))) :
    DirOut.clean (copy_directory o false n (FsTree.dir dm es1) (DstSlot.present X) pp2) := by
  obtain ⟨he2, hc2, hf2, hb2⟩ := h2
  by_cases hpm : ((o.purge || o.mirror) && !o.list_only) = true
  · rcases hpd : (process_entries o false es1 (DstSlot.present X)).dst with b2 | t2
    · simp [copy_directory, DirOut.clean, he2, hpm, hpd, hc2, hf2, hb2,
        Statistics.zero_add_left]
    · cases t2 with
      | file f2 =>
          simp [copy_directory, DirOut.clean, he2, hpm, hpd, hc2, hf2, hb2,
            Statistics.zero_add_left]
      | dir dm2 des2 =>
          obtain ⟨p1, p2, p3, p4⟩ := purge_entries_file_counters o false es1.names des2
          simp [copy_directory, DirOut.clean, he2, hpm, hpd, hc2, hf2, hb2, p1, p3, p4,
            Statistics.zero_add_left]
  · have hpm2 : ((o.purge || o.mirror) && !o.list_only) = false := by
      rcases Bool.eq_false_or_eq_true ((o.purge || o.mirror) && !o.list_only) with h | h
      · exact absurd h hpm
      · exact h
    simp [copy_directory, DirOut.clean, he2, hpm2, hc2, hf2, hb2, Statistics.zero_add_left]

theorem copy_directory_rerun_present (o : CopyOptions) (hl : o.list_only = false)
    (n : String) (dm : FileMeta) (dirEs : Entries)
    (IH : ∀ (t0 : FsTree),
      (process_entries o false dirEs (DstSlot.present t0)).err = none →
      ∀ (d2 : DstSlot),
        slotsAgree d2 (process_entries o false dirEs (DstSlot.present t0)).dst
          (process_entries o false dirEs (DstSlot.present t0)).src.names →
        ProcOut.clean (process_entries o false
          (process_entries o false dirEs (DstSlot.present t0)).src d2))
    (w0 : FsTree) (pp : Bool)
    (hce : (copy_directory o false n (FsTree.dir dm dirEs) (DstSlot.present w0) pp).err
      = none) :
    (∃ x, (copy_directory o false n (FsTree.dir dm dirEs) (DstSlot.present w0) pp).dst
      = DstSlot.present x) ∧
    (copy_directory o false n (FsTree.dir dm dirEs) (DstSlot.present w0) pp).src
      = FsTree.dir dm
        (process_entries o false dirEs (DstSlot.present w0)).src ∧
    ∀ (pp2 : Bool),
      DirOut.clean (copy_directory o false n
        ((copy_directory o false n (FsTree.dir dm dirEs) (DstSlot.present w0) pp).src)
        ((copy_directory o false n (FsTree.dir dm dirEs) (DstSlot.present w0) pp).dst) pp2) := by
  rcases hpe : (process_entries o false dirEs (DstSlot.present w0)).err with _ | e
  · obtain ⟨x0, hx0⟩ := shapeLike_present (process_entries_shapeLike o false dirEs
      (DstSlot.present w0))
    have hsub := process_entries_src_names o false dirEs (DstSlot.present w0)
    by_cases hpm : ((o.purge || o.mirror) && !o.list_only) = true
    · cases x0 with
      | file f2 =>
          have hagrefl : slotsAgree (DstSlot.present (FsTree.file f2))
              (process_entries o false dirEs (DstSlot.present w0)).dst
              (process_entries o false dirEs (DstSlot.present w0)).src.names := by
            intro k hk
            rw [hx0]
            exact ⟨rfl, rfl⟩
          have h2 := IH w0 hpe (DstSlot.present (FsTree.file f2)) hagrefl
          have hsrc : (copy_directory o false n (FsTree.dir dm dirEs)
              (DstSlot.present w0) pp).src = FsTree.dir dm
                (process_entries o false dirEs (DstSlot.present w0)).src := by
            simp [copy_directory, hpe, hpm, hx0]
          have hdst : (copy_directory o false n (FsTree.dir dm dirEs)
              (DstSlot.present w0) pp).dst = DstSlot.present (FsTree.file f2) := by
            simp [copy_directory, hpe, hpm, hx0]
          refine ⟨⟨FsTree.file f2, hdst⟩, hsrc, ?_⟩
          intro pp2
          rw [hsrc, hdst]
          exact copy_directory_second o hl n dm _ (FsTree.file f2) pp2 h2
      | dir dm2 des2 =>
          have hagp : slotsAgree
              (DstSlot.present (FsTree.dir dm2
                (purge_entries o false dirEs.names des2).dst))
              (process_entries o false dirEs (DstSlot.present w0)).dst
              (process_entries o false dirEs (DstSlot.present w0)).src.names := by
            intro k hk
            have hmem : k ∈ dirEs.names := hsub.subset hk
            have hcont : dirEs.names.contains k = true := by simpa using hmem
            have hlkeq := purge_entries_lookup o false dirEs.names des2 k hcont
            rw [hx0]
            constructor
            · simp [fileSlotOf, hlkeq]
            · simp [dirChildSlot, hlkeq]
          have h2 := IH w0 hpe (DstSlot.present (FsTree.dir dm2
            (purge_entries o false dirEs.names des2).dst)) hagp
          have hsrc : (copy_directory o false n (FsTree.dir dm dirEs)
              (DstSlot.present w0) pp).src = FsTree.dir dm
                (process_entries o false dirEs (DstSlot.present w0)).src := by
            simp [copy_directory, hpe, hpm, hx0]
          have hdst : (copy_directory o false n (FsTree.dir dm dirEs)
              (DstSlot.present w0) pp).dst = DstSlot.present (FsTree.dir dm2
                (purge_entries o false dirEs.names des2).dst) := by
            simp [copy_directory, hpe, hpm, hx0]
          refine ⟨⟨_, hdst⟩, hsrc, ?_⟩
          intro pp2
          rw [hsrc, hdst]
          exact copy_directory_second o hl n dm _ _ pp2 h2
    · have hpm2 : ((o.purge || o.mirror) && !o.list_only) = false := by
        rcases Bool.eq_false_or_eq_true ((o.purge || o.mirror) && !o.list_only) with h | h
        · exact absurd h hpm
        · exact h
      have hagrefl : slotsAgree (DstSlot.present x0)
          (process_entries o false dirEs (DstSlot.present w0)).dst
          (process_entries o false dirEs (DstSlot.present w0)).src.names := by
        intro k hk
        rw [hx0]
        exact ⟨rfl, rfl⟩
      have h2 := IH w0 hpe (DstSlot.present x0) hagrefl
      have hsrc : (copy_directory o false n (FsTree.dir dm dirEs)
          (DstSlot.present w0) pp).src = FsTree.dir dm
            (process_entries o false dirEs (DstSlot.present w0)).src := by
        simp [copy_directory, hpe, hpm2]
      have hdst : (copy_directory o false n (FsTree.dir dm dirEs)
          (DstSlot.present w0) pp).dst = DstSlot.present x0 := by
        simp [copy_directory, hpe, hpm2, hx0]
      refine ⟨⟨x0, hdst⟩, hsrc, ?_⟩
      intro pp2
      rw [hsrc, hdst]
      exact copy_directory_second o hl n dm _ x0 pp2 h2
  · simp [copy_directory, hpe] at hce

theorem copy_directory_absent_true_parts (o : CopyOptions) (hl : o.list_only = false)
    (n : String) (dm : FileMeta) (dirEs : Entries) (pp pq : Bool) :
    (copy_directory o false n (FsTree.dir dm dirEs) (DstSlot.absent true) pp).src
      = (copy_directory o false n (FsTree.dir dm dirEs)
          (DstSlot.present (FsTree.dir ⟨0, 0⟩ Entries.nil)) pq).src ∧
    (copy_directory o false n (FsTree.dir dm dirEs) (DstSlot.absent true) pp).dst
      = (copy_directory o false n (FsTree.dir dm dirEs)
          (DstSlot.present (FsTree.dir ⟨0, 0⟩ Entries.nil)) pq).dst ∧
    (copy_directory o false n (FsTree.dir dm dirEs) (DstSlot.absent true) pp).err
      = (copy_directory o false n (FsTree.dir dm dirEs)
          (DstSlot.present (FsTree.dir ⟨0, 0⟩ Entries.nil)) pq).err := by
  rcases hpe : (process_entries o false dirEs
      (DstSlot.present (FsTree.dir ⟨0, 0⟩ Entries.nil))).err with _ | e
  · by_cases hpm : ((o.purge || o.mirror) && !o.list_only) = true
    · have hpm3 : o.purge = true ∨ o.mirror = true := by
        simpa [hl] using hpm
      rcases hpd : (process_entries o false dirEs
          (DstSlot.present (FsTree.dir ⟨0, 0⟩ Entries.nil))).dst with b2 | t2
      · simp [copy_directory, hl, hpe, hpm, hpm3, hpd]
      · cases t2 <;> simp [copy_directory, hl, hpe, hpm, hpm3, hpd]
    · have hpm2 : ((o.purge || o.mirror) && !o.list_only) = false := by
        rcases Bool.eq_false_or_eq_true ((o.purge || o.mirror) && !o.list_only) with h | h
        · exact absurd h hpm
        · exact h
      have hpm3 : ¬ (o.purge = true ∨ o.mirror = true) := by
        intro hx
        rw [Bool.and_eq_false_iff] at hpm2
        rcases hpm2 with h | h
        · rcases hx with hx | hx <;> simp [hx] at h
        · simp [hl] at h
      simp [copy_directory, hl, hpe, hpm2, hpm3]
  · simp [copy_directory, hl, hpe]

theorem copy_directory_rerun (o : CopyOptions) (hl : o.list_only = false)
    (n : String) (dm : FileMeta) (dirEs : Entries)
    (IH : ∀ (t0 : FsTree),
      (process_entries o false dirEs (DstSlot.present t0)).err = none →
      ∀ (d2 : DstSlot),
        slotsAgree d2 (process_entries o false dirEs (DstSlot.present t0)).dst
          (process_entries o false dirEs (DstSlot.present t0)).src.names →
        ProcOut.clean (process_entries o false
          (process_entries o false dirEs (DstSlot.present t0)).src d2))
    (slot : DstSlot) (pp : Bool)
    (hce : (copy_directory o false n (FsTree.dir dm dirEs) slot pp).err = none) :
    ∃ w0,
      (∃ x, (copy_directory o false n (FsTree.dir dm dirEs) slot pp).dst
        = DstSlot.present x) ∧
      (copy_directory o false n (FsTree.dir dm dirEs) slot pp).src
        = FsTree.dir dm (process_entries o false dirEs (DstSlot.present w0)).src ∧
      ∀ (pp2 : Bool),
        DirOut.clean (copy_directory o false n
          ((copy_directory o false n (FsTree.dir dm dirEs) slot pp).src)
          ((copy_directory o false n (FsTree.dir dm dirEs) slot pp).dst) pp2) := by
  rcases slot with b | t
  · cases b with
    | false =>
        exfalso
        simp [copy_directory, hl] at hce
    | true =>
        obtain ⟨hs, hd, he⟩ := copy_directory_absent_true_parts o hl n dm dirEs pp pp
        rw [he] at hce
        obtain ⟨⟨x, hx⟩, hb2, hc⟩ := copy_directory_rerun_present o hl n dm dirEs IH
          (FsTree.dir ⟨0, 0⟩ Entries.nil) pp hce
        refine ⟨FsTree.dir ⟨0, 0⟩ Entries.nil, ⟨x, hd.trans hx⟩, hs.trans hb2, ?_⟩
        intro pp2
        rw [hs, hd]
        exact hc pp2
  · obtain ⟨ha, hb2, hc⟩ := copy_directory_rerun_present o hl n dm dirEs IH t pp hce
    exact ⟨t, ha, hb2, hc⟩

theorem process_entries_idem_dir_step (o : CopyOptions)
    (hl : o.list_only = false)
    (n : String) (dm : FileMeta) (rest : Entries)
    (IHrest : ∀ (t1 : FsTree),
      (process_entries o false rest (DstSlot.present t1)).err = none →
      ∀ (d3 : DstSlot),
        slotsAgree d3 (process_entries o false rest (DstSlot.present t1)).dst
          (process_entries o false rest (DstSlot.present t1)).src.names →
        ProcOut.clean (process_entries o false
          (process_entries o false rest (DstSlot.present t1)).src d3))
    (hr : o.recursive = true) (hnn : ¬ n ∈ rest.names)
    (dm0 : FileMeta) (des0 : Entries) (x : FsTree) (d2 : DstSlot) (srcE : Entries)
    (hcln : ∀ (pp2 : Bool), DirOut.clean (copy_directory o false n
      (FsTree.dir dm srcE) (DstSlot.present x) pp2))
    (herr : (process_entries o false rest
      (DstSlot.present (FsTree.dir dm0 (des0.setEntry n x)))).err = none)
    (hag : slotsAgree d2
      (process_entries o false rest
        (DstSlot.present (FsTree.dir dm0 (des0.setEntry n x)))).dst
      (Entries.cons n (FsTree.dir dm srcE)
        (process_entries o false rest
          (DstSlot.present (FsTree.dir dm0 (des0.setEntry n x)))).src).names) :
    ProcOut.clean (process_entries o false
      (Entries.cons n (FsTree.dir dm srcE)
        (process_entries o false rest
          (DstSlot.present (FsTree.dir dm0 (des0.setEntry n x)))).src) d2) := by
  by_cases he2 : (!o.include_empty && (FsTree.dir dm srcE).isEmptyDir) = true
  · have hagr : slotsAgree d2
        (process_entries o false rest (DstSlot.present (FsTree.dir dm0
          (des0.setEntry n x)))).dst
        (process_entries o false rest (DstSlot.present (FsTree.dir dm0
          (des0.setEntry n x)))).src.names := by
      intro k hk
      exact hag k (by simp [Entries.names]; exact Or.inr hk)
    obtain ⟨i1, i2, i3, i4⟩ := IHrest (FsTree.dir dm0 (des0.setEntry n x)) herr d2 hagr
    simp [process_entries, hr, he2, ProcOut.clean, i1, i2, i3, i4]
  · have he2f : (!o.include_empty && (FsTree.dir dm srcE).isEmptyDir) = false := by
      rcases Bool.eq_false_or_eq_true
        (!o.include_empty && (FsTree.dir dm srcE).isEmptyDir) with h | h
      · exact absurd h he2
      · exact h
    have hgmem : n ∈ (Entries.cons n (FsTree.dir dm srcE)
        (process_entries o false rest (DstSlot.present (FsTree.dir dm0
          (des0.setEntry n x)))).src).names := by
      simp [Entries.names]
    have h1 := hag n hgmem
    have hframe := process_entries_frame o false rest
      (DstSlot.present (FsTree.dir dm0 (des0.setEntry n x))) n hnn
    have hselfd : dirChildSlot (DstSlot.present (FsTree.dir dm0
        (des0.setEntry n x))) n = DstSlot.present x := by
      simp [dirChildSlot, Entries.lookup_setEntry_self]
    have hslot2 : dirChildSlot d2 n = DstSlot.present x :=
      h1.2.trans (hframe.2.trans hselfd)
    have hcln2 := hcln (DstSlot.existsB d2)
    rw [← hslot2] at hcln2
    obtain ⟨c1, c2, c3, c4⟩ := hcln2
    have hsubr := process_entries_src_names o false rest
      (DstSlot.present (FsTree.dir dm0 (des0.setEntry n x)))
    have hagr : slotsAgree (setSlot d2 n
        (copy_directory o false n (FsTree.dir dm srcE)
          (dirChildSlot d2 n) (DstSlot.existsB d2)).dst)
        (process_entries o false rest (DstSlot.present (FsTree.dir dm0
          (des0.setEntry n x)))).dst
        (process_entries o false rest (DstSlot.present (FsTree.dir dm0
          (des0.setEntry n x)))).src.names := by
      intro k hk
      have hkn : k ≠ n := by
        intro hx
        exact hnn (hx ▸ hsubr.subset hk)
      have hbase := hag k (by simp [Entries.names]; exact Or.inr hk)
      exact ⟨(fileSlotOf_setSlot_ne d2 n k _ hkn).trans hbase.1,
        (dirChildSlot_setSlot_ne d2 n k _ hkn).trans hbase.2⟩
    obtain ⟨i1, i2, i3, i4⟩ := IHrest (FsTree.dir dm0 (des0.setEntry n x)) herr
      (setSlot d2 n (copy_directory o false n (FsTree.dir dm srcE)
        (dirChildSlot d2 n) (DstSlot.existsB d2)).dst) hagr
    simp [process_entries, hr, he2f, ProcOut.clean, c1, c2, c3, c4, i1, i2, i3, i4]

theorem process_entries_idem (o : CopyOptions) (hf : o.force_overwrite = false)
    (hl : o.list_only = false) (hef : o.empty_files = false) :
    ∀ (es : Entries), es.wfB = true →
    ∀ (t0 : FsTree), (process_entries o false es (DstSlot.present t0)).err = none →
    ∀ (d2 : DstSlot),
      slotsAgree d2 (process_entries o false es (DstSlot.present t0)).dst
        (process_entries o false es (DstSlot.present t0)).src.names →
      ProcOut.clean (process_entries o false
        (process_entries o false es (DstSlot.present t0)).src d2)
  | .nil => by
      intro _ t0 _ d2 _
      simp [process_entries, ProcOut.clean]
  | .cons n (FsTree.file fm) rest => by
      intro hwf t0 herr d2 hag
      obtain ⟨hnn, hwt, hwr⟩ := (Entries.wfB_cons_iff n (FsTree.file fm) rest).mp hwf
      by_cases hm : matchesAny o.patterns n = true
      · by_cases hsc : should_copy_file fm (fileSlotOf (DstSlot.present t0) n).meta
            o.force_overwrite = true
        · rcases hcc : copy_file_content o (fileSlotOf (DstSlot.present t0) n) fm
              with e | sz
          · have hfoE := copy_file_err_of_content_err o n fm
              (fileSlotOf (DstSlot.present t0) n) e hl hsc hcc
            simp [process_entries, hm, hfoE] at herr
          · have hsz : sz = fm.size := copy_file_content_ok_size o _ fm sz hef hcc
            subst hsz
            obtain ⟨dm0, des0, ht0⟩ := fileSlotOf_file_or_creatable
              (DstSlot.present t0) n (copy_file_content_ok_shape o _ fm _ hcc)
            injection ht0 with ht0x
            subst ht0x
            have hfo := copy_file_copy_ok o n fm
              (fileSlotOf (DstSlot.present (FsTree.dir dm0 des0)) n) fm.size hl hsc hcc
            have hdst1 : setSlot (DstSlot.present (FsTree.dir dm0 des0)) n
                (DstSlot.present (FsTree.file ⟨fm.mtime, fm.size⟩))
                = DstSlot.present (FsTree.dir dm0
                    (des0.setEntry n (FsTree.file ⟨fm.mtime, fm.size⟩))) := rfl
            by_cases hmv : o.move_files = true
            · simp [process_entries, hm, hfo, hmv] at herr hag ⊢
              rw [hdst1] at herr hag ⊢
              exact process_entries_idem o hf hl hef rest hwr
                (FsTree.dir dm0 (des0.setEntry n (FsTree.file ⟨fm.mtime, fm.size⟩)))
                herr d2 hag
            · have hmv2 : o.move_files = false := by
                rcases Bool.eq_false_or_eq_true o.move_files with h | h
                · exact absurd h hmv
                · exact h
              simp [process_entries, hm, hfo, hmv2] at herr hag ⊢
              rw [hdst1] at herr hag ⊢
              have hgmem : n ∈ (Entries.cons n (FsTree.file fm)
                  (process_entries o false rest (DstSlot.present (FsTree.dir dm0
                    (des0.setEntry n (FsTree.file ⟨fm.mtime, fm.size⟩))))).src).names := by
                simp [Entries.names]
              have h1 := hag n hgmem
              have hframe := process_entries_frame o false rest
                (DstSlot.present (FsTree.dir dm0
                  (des0.setEntry n (FsTree.file ⟨fm.mtime, fm.size⟩)))) n hnn
              have hself : fileSlotOf (DstSlot.present (FsTree.dir dm0
                  (des0.setEntry n (FsTree.file ⟨fm.mtime, fm.size⟩)))) n
                  = DstSlot.present (FsTree.file ⟨fm.mtime, fm.size⟩) := by
                simp [fileSlotOf, Entries.lookup_setEntry_self]
              have hslot2 : fileSlotOf d2 n
                  = DstSlot.present (FsTree.file ⟨fm.mtime, fm.size⟩) :=
                h1.1.trans (hframe.1.trans hself)
              have hsc2 : should_copy_file fm (fileSlotOf d2 n).meta
                  o.force_overwrite = false := by
                rw [hslot2, hf]
                simpa [DstSlot.meta, FsTree.meta] using should_copy_file_self fm
              have hfo2 := copy_file_skip o n fm (fileSlotOf d2 n) hf hsc2
              have hagr : slotsAgree d2
                  (process_entries o false rest (DstSlot.present (FsTree.dir dm0
                    (des0.setEntry n (FsTree.file ⟨fm.mtime, fm.size⟩))))).dst
                  (process_entries o false rest (DstSlot.present (FsTree.dir dm0
                    (des0.setEntry n (FsTree.file ⟨fm.mtime, fm.size⟩))))).src.names := by
                intro k hk
                exact hag k (by simp [Entries.names]; exact Or.inr hk)
              obtain ⟨i1, i2, i3, i4⟩ := process_entries_idem o hf hl hef rest hwr
                (FsTree.dir dm0 (des0.setEntry n (FsTree.file ⟨fm.mtime, fm.size⟩)))
                herr d2 hagr
              simp [process_entries, hm, hfo2, setSlot_fileSlot_self, ProcOut.clean,
                i1, i2, i3, i4]
        · have hsc3 : should_copy_file fm (fileSlotOf (DstSlot.present t0) n).meta
              o.force_overwrite = false := by
            rcases Bool.eq_false_or_eq_true (should_copy_file fm
              (fileSlotOf (DstSlot.present t0) n).meta o.force_overwrite) with h | h
            · exact absurd h hsc
            · exact h
          have hfo := copy_file_skip o n fm (fileSlotOf (DstSlot.present t0) n) hf hsc3
          simp [process_entries, hm, hfo, setSlot_fileSlot_self] at herr hag ⊢
          have hgmem : n ∈ (Entries.cons n (FsTree.file fm)
              (process_entries o false rest (DstSlot.present t0)).src).names := by
            simp [Entries.names]
          have h1 := hag n hgmem
          have hframe := process_entries_frame o false rest (DstSlot.present t0) n hnn
          have hslot2 : fileSlotOf d2 n = fileSlotOf (DstSlot.present t0) n :=
            h1.1.trans hframe.1
          have hsc2 : should_copy_file fm (fileSlotOf d2 n).meta
              o.force_overwrite = false := by
            rw [hslot2]
            exact hsc3
          have hfo2 := copy_file_skip o n fm (fileSlotOf d2 n) hf hsc2
          have hagr : slotsAgree d2
              (process_entries o false rest (DstSlot.present t0)).dst
              (process_entries o false rest (DstSlot.present t0)).src.names := by
            intro k hk
            exact hag k (by simp [Entries.names]; exact Or.inr hk)
          obtain ⟨i1, i2, i3, i4⟩ := process_entries_idem o hf hl hef rest hwr t0
            herr d2 hagr
          simp [process_entries, hm, hfo2, setSlot_fileSlot_self, ProcOut.clean,
            i1, i2, i3, i4]
      · have hm2 : matchesAny o.patterns n = false := by
          rcases Bool.eq_false_or_eq_true (matchesAny o.patterns n) with h | h
          · exact absurd h hm
          · exact h
        simp [process_entries, hm2] at herr hag ⊢
        have hagr : slotsAgree d2
            (process_entries o false rest (DstSlot.present t0)).dst
            (process_entries o false rest (DstSlot.present t0)).src.names := by
          intro k hk
          exact hag k (by simp [Entries.names]; exact Or.inr hk)
        obtain ⟨i1, i2, i3, i4⟩ := process_entries_idem o hf hl hef rest hwr t0
          herr d2 hagr
        simp [process_entries, hm2, ProcOut.clean, i1, i2, i3, i4]
  | .cons n (FsTree.dir dm dirEs) rest => by
      intro hwf t0 herr d2 hag
      obtain ⟨hnn, hwt, hwr⟩ :=
        (Entries.wfB_cons_iff n (FsTree.dir dm dirEs) rest).mp hwf
      have hwd : dirEs.wfB = true := by
        rw [← FsTree.wfB_dir dm dirEs]
        exact hwt
      by_cases hr : o.recursive = true
      · by_cases he : (!o.include_empty && (FsTree.dir dm dirEs).isEmptyDir) = true
        · simp [process_entries, hr, he] at herr hag ⊢
          have hagr : slotsAgree d2
              (process_entries o false rest (DstSlot.present t0)).dst
              (process_entries o false rest (DstSlot.present t0)).src.names := by
            intro k hk
            exact hag k (by simp [Entries.names]; exact Or.inr hk)
          obtain ⟨i1, i2, i3, i4⟩ := process_entries_idem o hf hl hef rest hwr t0
            herr d2 hagr
          simp [process_entries, hr, he, ProcOut.clean, i1, i2, i3, i4]
        · rcases hce : (copy_directory o false n (FsTree.dir dm dirEs)
              (dirChildSlot (DstSlot.present t0) n)
              (DstSlot.present t0).existsB).err with _ | e
          · cases t0 with
            | file f0 =>
                exfalso
                simp [copy_directory, dirChildSlot, hl] at hce
            | dir dm0 des0 =>
                obtain ⟨w0, ⟨x, hdstx⟩, hsrceq, hcln⟩ :=
                  copy_directory_rerun o hl n dm dirEs
                    (process_entries_idem o hf hl hef dirEs hwd)
                    (dirChildSlot (DstSlot.present (FsTree.dir dm0 des0)) n)
                    ((DstSlot.present (FsTree.dir dm0 des0)).existsB) hce
                have hdst1 : setSlot (DstSlot.present (FsTree.dir dm0 des0)) n
                    (DstSlot.present x)
                    = DstSlot.present (FsTree.dir dm0 (des0.setEntry n x)) := rfl
                by_cases hmvd : o.move_dirs = true
                · by_cases hemp : (FsTree.dir dm (process_entries o false dirEs
                      (DstSlot.present w0)).src).isEmptyDir = true
                  · simp [process_entries, hr, he, hce, hl, hmvd, hemp, hdstx, hsrceq]
                      at herr hag ⊢
                    rw [hdst1] at herr hag ⊢
                    exact process_entries_idem o hf hl hef rest hwr
                      (FsTree.dir dm0 (des0.setEntry n x)) herr d2 hag
                  · have hemp2 : (FsTree.dir dm (process_entries o false dirEs
                        (DstSlot.present w0)).src).isEmptyDir = false := by
                      rcases Bool.eq_false_or_eq_true ((FsTree.dir dm (process_entries
                        o false dirEs (DstSlot.present w0)).src).isEmptyDir) with h | h
                      · exact absurd h hemp
                      · exact h
                    simp [process_entries, hr, he, hce, hl, hmvd, hemp2, hdstx, hsrceq]
                      at herr hag
                    rw [hdst1] at herr hag
                    have hrun1 : (process_entries o false
                        (Entries.cons n (FsTree.dir dm dirEs) rest)
                        (DstSlot.present (FsTree.dir dm0 des0))).src
                        = Entries.cons n (FsTree.dir dm
                            (process_entries o false dirEs (DstSlot.present w0)).src)
                          (process_entries o false rest (DstSlot.present (FsTree.dir dm0
                            (des0.setEntry n x)))).src := by
                      simp [process_entries, hr, he, hce, hl, hmvd, hemp2, hdstx,
                        hsrceq, hdst1]
                    rw [hrun1]
                    refine process_entries_idem_dir_step o hl n dm rest
                      (process_entries_idem o hf hl hef rest hwr) hr hnn dm0 des0 x d2
                      (process_entries o false dirEs (DstSlot.present w0)).src
                      ?_ herr hag
                    intro pp2
                    have hcl := hcln pp2
                    rw [hsrceq, hdstx] at hcl
                    exact hcl
                · have hmvd2 : o.move_dirs = false := by
                    rcases Bool.eq_false_or_eq_true o.move_dirs with h | h
                    · exact absurd h hmvd
                    · exact h
                  simp [process_entries, hr, he, hce, hl, hmvd2, hdstx, hsrceq]
                    at herr hag
                  rw [hdst1] at herr hag
                  have hrun1 : (process_entries o false
                      (Entries.cons n (FsTree.dir dm dirEs) rest)
                      (DstSlot.present (FsTree.dir dm0 des0))).src
                      = Entries.cons n (FsTree.dir dm
                          (process_entries o false dirEs (DstSlot.present w0)).src)
                        (process_entries o false rest (DstSlot.present (FsTree.dir dm0
                          (des0.setEntry n x)))).src := by
                    simp [process_entries, hr, he, hce, hl, hmvd2, hdstx,
                      hsrceq, hdst1]
                  rw [hrun1]
                  refine process_entries_idem_dir_step o hl n dm rest
                    (process_entries_idem o hf hl hef rest hwr) hr hnn dm0 des0 x d2
                    (process_entries o false dirEs (DstSlot.present w0)).src
                    ?_ herr hag
                  intro pp2
                  have hcl := hcln pp2
                  rw [hsrceq, hdstx] at hcl
                  exact hcl
          · simp [process_entries, hr, he, hce] at herr
      · have hr2 : o.recursive = false := by
          rcases Bool.eq_false_or_eq_true o.recursive with h | h
          · exact absurd h hr
          · exact h
        simp [process_entries, hr2] at herr hag ⊢
        have hagr : slotsAgree d2
            (process_entries o false rest (DstSlot.present t0)).dst
            (process_entries o false rest (DstSlot.present t0)).src.names := by
          intro k hk
          exact hag k (by simp [Entries.names]; exact Or.inr hk)
        obtain ⟨i1, i2, i3, i4⟩ := process_entries_idem o hf hl hef rest hwr t0
          herr d2 hagr
        simp [process_entries, hr2, ProcOut.clean, i1, i2, i3, i4]

/-- C7: Running the synchronizer a second time on the source/destination
state left by an error-free first run copies zero additional files (and
fails none, and moves no bytes): every file the second run considers is
skipped, because a successful copy stamps the source modification time
onto the destination and should_copy_file then sees equal times and equal
sizes.  This holds under the stated side conditions, each of which the
code makes necessary: force_overwrite off (on, every file is re-copied),
list_only off (its copied counter increments without touching the
destination), empty_files off (a zero-length placeholder differs in size
from its source and is re-copied), and distinct sibling names (true of a
real directory listing). -/
theorem C7_second_run_copies_nothing (o : CopyOptions)
    (hfo : o.force_overwrite = false) (hlo : o.list_only = false)
    (hef : o.empty_files = false)
    (name : String) (dm : FileMeta) (es : Entries) (hwf : es.wfB = true)
    (slot : DstSlot) (pp pp2 : Bool)
    (h1 : (copy_directory o false name (FsTree.dir dm es) slot pp).err = none) :
    DirOut.clean (copy_directory o false name
      (copy_directory o false name (FsTree.dir dm es) slot pp).src
      (copy_directory o false name (FsTree.dir dm es) slot pp).dst pp2) := by
  obtain ⟨w0, _, _, hcln⟩ := copy_directory_rerun o hlo name dm es
    (process_entries_idem o hfo hlo hef es hwf) slot pp h1
  exact hcln pp2

theorem C7_second_run_copies_nothing_witness :
    DirOut.clean (copy_directory { patterns := ["*"], recursive := true } false "d"
      (copy_directory { patterns := ["*"], recursive := true } false "d"
        (FsTree.dir ⟨7, 0⟩ (Entries.cons "a" (FsTree.file ⟨5, 3⟩) Entries.nil))
        (DstSlot.absent true) true).src
      (copy_directory { patterns := ["*"], recursive := true } false "d"
        (FsTree.dir ⟨7, 0⟩ (Entries.cons "a" (FsTree.file ⟨5, 3⟩) Entries.nil))
        (DstSlot.absent true) true).dst true) :=
  C7_second_run_copies_nothing { patterns := ["*"], recursive := true } rfl rfl rfl
    "d" ⟨7, 0⟩ (Entries.cons "a" (FsTree.file ⟨5, 3⟩) Entries.nil) (by decide)
    (DstSlot.absent true) true true (by decide)

/-- C7 counterexample: with force_overwrite on (reachable, copy.rs reads
options.force_overwrite at line 206), the second run over the untouched
pair re-copies the file, so the unconditional claim is false. -/
theorem C7_counterexample_force_overwrite :
    (copy_directory { patterns := ["*"], recursive := true, force_overwrite := true }
      false "d"
      (copy_directory { patterns := ["*"], recursive := true, force_overwrite := true }
        false "d"
        (FsTree.dir ⟨7, 0⟩ (Entries.cons "a" (FsTree.file ⟨5, 3⟩) Entries.nil))
        (DstSlot.absent true) true).src
      (copy_directory { patterns := ["*"], recursive := true, force_overwrite := true }
        false "d"
        (FsTree.dir ⟨7, 0⟩ (Entries.cons "a" (FsTree.file ⟨5, 3⟩) Entries.nil))
        (DstSlot.absent true) true).dst true).stats.files_copied = 1 := by decide
